import Mathlib

/-!
Shallow embedding of the hex strategy game engine from `src/main.py`
(the second, complete iteration of the source, lines 167-670).

Conventions of the embedding:
* axial coordinates are pairs of integers;
* tile terrain is drawn by `random.choice` at construction in the source,
  so every definition that reads terrain is parameterized by a terrain
  assignment `T : Pos → Terrain`;
* grid membership (`pos in self.grid`) is parameterized by `G : Pos → Bool`
  for the standalone search routines, and computed from the state's tile
  list for whole-game operations;
* Python unit/building objects are aliased between tiles and player
  rosters; the embedding gives each one a numeric id in a store, tiles and
  rosters hold ids;
* `health` values become rationals: the source divides by 100 and by 2;
* operations that can raise in Python (attribute access on `None`,
  `dict` lookup of a missing key) return `Option`, `none` marking the raise.
-/

abbrev Pos := Int × Int

inductive Terrain where
  | plain
  | forest
  | mountain
  | water
deriving DecidableEq, Repr

/-- Terrain defense bonus table from `HexTile.__init__`:
plain 0, forest 2, mountain 4, water -1. -/
def terrainDefenseBonus : Terrain → Int
  | Terrain.plain => 0
  | Terrain.forest => 2
  | Terrain.mountain => 4
  | Terrain.water => -1

/-- Terrain movement cost used by `handle_action` (and by the spec's
description of `reachable_tiles`): plain 1, forest 2, mountain 3;
water is never enterable so it has no cost. -/
def terrainMoveCost : Terrain → Int
  | Terrain.plain => 1
  | Terrain.forest => 2
  | Terrain.mountain => 3
  | Terrain.water => 1

/-- The six axial direction offsets of `Game.get_neighbors`, in source order. -/
def hexDirs : List Pos :=
  [(1, 0), (1, -1), (0, -1), (-1, 0), (-1, 1), (0, 1)]

/-- `Game.get_neighbors`: the six axial neighbours filtered to grid membership. -/
def nbrs (G : Pos → Bool) (p : Pos) : List Pos :=
  (hexDirs.map (fun d => (p.1 + d.1, p.2 + d.2))).filter (fun x => G x)

/-- `Game.hex_distance`: `(|dq| + |dq+dr| + |dr|) // 2`. -/
def hexDistance (a b : Pos) : Int :=
  (|a.1 - b.1| + |a.1 + a.2 - b.1 - b.2| + |a.2 - b.2|) / 2

/-- Python's two-argument `max` on exact rationals, kernel-computable. -/
def pymax (a b : ℚ) : ℚ := if a ≤ b then b else a

/-- Python 3 `round` on an exact rational: round half to even. -/
def pyRound (x : ℚ) : ℤ :=
  if x - ⌊x⌋ < 1/2 then ⌊x⌋
  else if x - ⌊x⌋ > 1/2 then ⌊x⌋ + 1
  else if ⌊x⌋ % 2 = 0 then ⌊x⌋ else ⌊x⌋ + 1

/-- `Game._round_hex`, line for line: the `*_diff` variables compare each
rounded value with itself (the source overwrote `q`, `r`, `s` before
computing the diffs). -/
def roundHex (q r : ℚ) : ℤ × ℤ :=
  let s : ℚ := -q - r
  let q1 := pyRound q
  let r1 := pyRound r
  let s1 := pyRound s
  let qDiff := |q1 - q1|
  let rDiff := |r1 - r1|
  let sDiff := |s1 - s1|
  if qDiff > rDiff ∧ qDiff > sDiff then (-r1 - s1, r1)
  else if rDiff > sDiff then (q1, -q1 - s1)
  else (q1, r1)

/-- One step of `Game.get_tiles_in_range`'s worklist loop: pop the front
entry `(pos, moves_left)`, append `pos` to the result, and when
`moves_left > 0` enqueue the unvisited non-water neighbours. -/
def tilesGo (T : Pos → Terrain) (G : Pos → Bool) :
    List (Pos × Nat) → List Pos → List Pos → List Pos
  | [], _, result => result
  | (pos, m) :: rest, visited, result =>
    if m > 0 then
      tilesGo T G
        (rest ++ ((nbrs G pos).filter
          (fun x => x ∉ visited ∧ T x ≠ Terrain.water)).map (fun x => (x, m - 1)))
        (visited ++ (nbrs G pos).filter
          (fun x => x ∉ visited ∧ T x ≠ Terrain.water))
        (result ++ [pos])
    else
      tilesGo T G rest visited (result ++ [pos])
termination_by q _ _ => (q.map (fun e => 7 ^ e.2)).sum
decreasing_by
  · simp only [List.map_append, List.sum_append, List.map_cons, List.sum_cons,
      List.map_map]
    set ns := (nbrs G pos).filter
      (fun x => x ∉ visited ∧ T x ≠ Terrain.water) with hns
    have hlen : ns.length ≤ 6 := by
      have h1 : ns.length ≤ (nbrs G pos).length := by
        rw [hns]; exact List.length_filter_le _ _
      have h2 : (nbrs G pos).length ≤ 6 := by
        have := List.length_filter_le (fun x => G x)
          (hexDirs.map (fun d => (pos.1 + d.1, pos.2 + d.2)))
        simpa [nbrs, hexDirs] using this
      omega
    have hmap : ∀ l : List Pos,
        (List.map ((fun e : Pos × ℕ => 7 ^ e.2) ∘ fun x => (x, m - 1)) l).sum
        = l.length * 7 ^ (m - 1) := by
      intro l
      induction l with
      | nil => simp
      | cons a t ih => simp [ih]; ring
    rw [hmap]
    have hpow : ns.length * 7 ^ (m - 1) < 7 ^ m := by
      calc ns.length * 7 ^ (m - 1) ≤ 6 * 7 ^ (m - 1) :=
            Nat.mul_le_mul_right _ hlen
        _ < 7 * 7 ^ (m - 1) := by
            have : (0:ℕ) < 7 ^ (m - 1) := Nat.pos_pow_of_pos _ (by omega)
            omega
        _ = 7 ^ (m - 1 + 1) := by rw [Nat.pow_succ]; ring
        _ ≤ 7 ^ m := Nat.pow_le_pow_right (by omega) (by omega)
    omega
  · have : (0:ℕ) < 7 ^ m := Nat.pos_pow_of_pos _ (by omega)
    simp only [List.map_cons, List.sum_cons]
    omega

/-- `Game.get_tiles_in_range`: breadth-first expansion with a unit step
budget (one movement point per step, whatever the terrain), water tiles
never enqueued, the start pre-visited and always part of the result. -/
def getTilesInRange (T : Pos → Terrain) (G : Pos → Bool) (start : Pos)
    (movement : Nat) : List Pos :=
  tilesGo T G [(start, movement)] [start] []

/-- One step of `Game._find_path`'s worklist loop: pop the front entry
`(p, path)`; skip it when the carried path is longer than `max_moves`;
return the path when `p` is the target; otherwise enqueue the unvisited
non-water neighbours with their extended paths.  The start is *not*
pre-visited in the source. -/
def findPathGo (T : Pos → Terrain) (G : Pos → Bool) (endP : Pos) (M : Nat) :
    List (Pos × List Pos) → List Pos → List Pos
  | [], _ => []
  | (p, path) :: rest, visited =>
    if path.length > M then findPathGo T G endP M rest visited
    else if p = endP then path
    else
      findPathGo T G endP M
        (rest ++ ((nbrs G p).filter
          (fun x => x ∉ visited ∧ T x ≠ Terrain.water)).map
            (fun x => (x, path ++ [x])))
        (visited ++ (nbrs G p).filter
          (fun x => x ∉ visited ∧ T x ≠ Terrain.water))
termination_by q _ => (q.map (fun e => 7 ^ (M + 2 - e.2.length))).sum
decreasing_by
  · simp only [List.map_cons, List.sum_cons]
    have : (0:ℕ) < 7 ^ (M + 2 - path.length) := Nat.pos_pow_of_pos _ (by omega)
    omega
  · simp only [List.map_append, List.sum_append, List.map_cons, List.sum_cons,
      List.map_map]
    set ns := (nbrs G p).filter
      (fun x => x ∉ visited ∧ T x ≠ Terrain.water) with hns
    have hlen : ns.length ≤ 6 := by
      have h1 : ns.length ≤ (nbrs G p).length := by
        rw [hns]; exact List.length_filter_le _ _
      have h2 : (nbrs G p).length ≤ 6 := by
        have := List.length_filter_le (fun x => G x)
          (hexDirs.map (fun d => (p.1 + d.1, p.2 + d.2)))
        simpa [nbrs, hexDirs] using this
      omega
    have hmap : ∀ l : List Pos,
        (List.map ((fun e : Pos × List Pos => 7 ^ (M + 2 - e.2.length)) ∘
          fun x => (x, path ++ [x])) l).sum
        = l.length * 7 ^ (M + 1 - path.length) := by
      intro l
      induction l with
      | nil => simp
      | cons a t ih =>
        simp only [List.map_cons, List.sum_cons, ih, Function.comp,
          List.length_append, List.length_cons, List.length_nil, List.length]
        have : M + 2 - (path.length + 1) = M + 1 - path.length := by omega
        rw [this]; ring
    rw [hmap]
    have hpow : ns.length * 7 ^ (M + 1 - path.length)
        < 7 ^ (M + 2 - path.length) := by
      have he : M + 2 - path.length = (M + 1 - path.length) + 1 := by omega
      calc ns.length * 7 ^ (M + 1 - path.length)
          ≤ 6 * 7 ^ (M + 1 - path.length) := Nat.mul_le_mul_right _ hlen
        _ < 7 * 7 ^ (M + 1 - path.length) := by
            have : (0:ℕ) < 7 ^ (M + 1 - path.length) :=
              Nat.pos_pow_of_pos _ (by omega)
            omega
        _ = 7 ^ ((M + 1 - path.length) + 1) := by rw [Nat.pow_succ]; ring
        _ = 7 ^ (M + 2 - path.length) := by rw [he]
    omega

/-- `Game._find_path`: step-bounded breadth-first search; the initial queue
holds `(start, [start])` and the initial visited set is empty. -/
def findPath (T : Pos → Terrain) (G : Pos → Bool) (start endP : Pos)
    (M : Nat) : List Pos :=
  findPathGo T G endP M [(start, [start])] []

inductive BuildingType where
  | capital
  | barracks
  | researchLab
  | factory
  | mine
deriving DecidableEq, Repr

inductive UnitType where
  | infantry
  | tank
  | artillery
  | aircraft
deriving DecidableEq, Repr

structure BuildingStats where
  cost : Int
  income : Int
  defenseBonus : Int
deriving DecidableEq, Repr

/-- `BUILDING_DATA`. -/
def buildingData : BuildingType → BuildingStats
  | BuildingType.capital => ⟨500, 50, 5⟩
  | BuildingType.barracks => ⟨200, 0, 2⟩
  | BuildingType.researchLab => ⟨300, 20, 0⟩
  | BuildingType.factory => ⟨400, 30, 1⟩
  | BuildingType.mine => ⟨250, 40, 0⟩

structure UnitStats where
  cost : Int
  attack : Int
  defense : Int
  movement : Int
  range : Int
deriving DecidableEq, Repr

/-- `UNIT_DATA`. -/
def unitData : UnitType → UnitStats
  | UnitType.infantry => ⟨100, 5, 3, 2, 1⟩
  | UnitType.tank => ⟨300, 10, 7, 3, 1⟩
  | UnitType.artillery => ⟨250, 8, 2, 1, 3⟩
  | UnitType.aircraft => ⟨400, 12, 4, 4, 2⟩

/-- The `Unit` class (named `GameUnit` here because `Unit` is taken in Lean).
`position` is `Option Pos` because `Unit.__init__` never sets the attribute:
reading it before some code assigns it raises in Python, which the
embedding marks by `none`. -/
structure GameUnit where
  utype : UnitType
  owner : Nat
  health : ℚ
  movesLeft : Int
  hasAttacked : Bool
  position : Option Pos
deriving DecidableEq, Repr

/-- `Unit.__init__`. -/
def mkUnit (ut : UnitType) (owner : Nat) : GameUnit :=
  ⟨ut, owner, 100, (unitData ut).movement, false, none⟩

/-- The `Building` class.  `cost`, `income` and `defense_bonus` are copied
from the stats table at construction and never mutated, so the embedding
reads them through `buildingData` instead of storing them. -/
structure Building where
  btype : BuildingType
  owner : Nat
  position : Pos
  health : ℚ
  level : Int
deriving DecidableEq, Repr

/-- `Building.__init__`. -/
def mkBuilding (bt : BuildingType) (owner : Nat) (pos : Pos) : Building :=
  ⟨bt, owner, pos, 100, 1⟩

/-- A `HexTile`'s mutable content; `unit` and `building` hold store ids.
The coordinate is the key it is filed under, and the terrain is fixed at
construction. -/
structure HexTile where
  owner : Option Nat
  unit : Option Nat
  building : Option Nat
  terrain : Terrain
deriving DecidableEq, Repr

/-- The `Player` class (second iteration: no research levels). -/
structure Player where
  id : Nat
  isBot : Bool
  gold : Int
  income : Int
  buildings : List Nat
  units : List Nat
deriving DecidableEq, Repr

/-- `Player.__init__`. -/
def newPlayer (i : Nat) (isBot : Bool) : Player :=
  ⟨i, isBot, 1000, 100, [], []⟩

/-- The whole `Game` state.  `players` holds `none` for an eliminated
player (the source stores `None` in the slot).  The id stores give the
Python objects an identity: a unit/building referenced from both a tile
and a roster is one store entry. -/
structure GameState where
  grid : List (Pos × HexTile)
  players : List (Option Player)
  unitStore : List (Nat × GameUnit)
  bldStore : List (Nat × Building)
  nextId : Nat
  currentPlayer : Nat
  selectedTile : Option Pos
  turn : Nat
deriving DecidableEq, Repr

/-- Association-list lookup (a Python `dict` read). -/
def alookup {κ α : Type} [DecidableEq κ] (l : List (κ × α)) (k : κ) : Option α :=
  (l.find? (fun e => e.1 = k)).map Prod.snd

/-- Association-list in-place update (a Python `dict`/attribute write to an
existing key keeps the insertion order). -/
def aupdate {κ α : Type} [DecidableEq κ] (l : List (κ × α)) (k : κ)
    (f : α → α) : List (κ × α) :=
  l.map (fun e => if e.1 = k then (e.1, f e.2) else e)

def getTile (s : GameState) (p : Pos) : Option HexTile :=
  alookup s.grid p

def gridHas (s : GameState) (p : Pos) : Bool :=
  (getTile s p).isSome

def terrainOf (s : GameState) : Pos → Terrain := fun p =>
  match getTile s p with
  | some t => t.terrain
  | none => Terrain.plain

def getUnit (s : GameState) (i : Nat) : Option GameUnit :=
  alookup s.unitStore i

def getBld (s : GameState) (i : Nat) : Option Building :=
  alookup s.bldStore i

/-- `self.players[i]` (an out-of-range index, impossible in the source's
states, reads as an eliminated slot). -/
def getPlayer (s : GameState) (i : Nat) : Option Player :=
  (s.players.get? i).getD none

def setPlayer (s : GameState) (i : Nat) (po : Option Player) : GameState :=
  { s with players := s.players.set i po }

/-- Mutate a player in place.  The source would raise on an eliminated
(`None`) slot; no operation of interest reaches that case, the embedding
leaves the state unchanged there. -/
def updPlayer (s : GameState) (i : Nat) (f : Player → Player) : GameState :=
  match getPlayer s i with
  | none => s
  | some p => setPlayer s i (some (f p))

def updTile (s : GameState) (p : Pos) (f : HexTile → HexTile) : GameState :=
  { s with grid := aupdate s.grid p f }

def updUnit (s : GameState) (i : Nat) (f : GameUnit → GameUnit) : GameState :=
  { s with unitStore := aupdate s.unitStore i f }

def updBld (s : GameState) (i : Nat) (f : Building → Building) : GameState :=
  { s with bldStore := aupdate s.bldStore i f }

/-- `HexTile.get_defense_bonus`: terrain bonus plus the occupying
building's bonus.  A dangling building id (impossible in the source's
states, where the tile aliases the object) contributes 0. -/
def tileDefenseBonus (s : GameState) (t : HexTile) : Int :=
  terrainDefenseBonus t.terrain +
    (match t.building with
     | none => 0
     | some bid =>
       match getBld s bid with
       | none => 0
       | some b => (buildingData b.btype).defenseBonus)

/-- `Player.can_afford`. -/
def canAfford (p : Player) (cost : Int) : Bool :=
  p.gold ≥ cost

/-- `Player.add_unit`: gold-gated unit production.  Returns the new unit's
id; on failure returns `none` with the state untouched. -/
def playerAddUnit (s : GameState) (pid : Nat) (ut : UnitType) :
    Option Nat × GameState :=
  match getPlayer s pid with
  | none => (none, s)
  | some p =>
    if canAfford p (unitData ut).cost then
      let uid := s.nextId
      let s1 := { s with unitStore := s.unitStore ++ [(uid, mkUnit ut pid)],
                         nextId := uid + 1 }
      (some uid, setPlayer s1 pid (some { p with
        gold := p.gold - (unitData ut).cost,
        units := p.units ++ [uid] }))
    else (none, s)

/-- `Player.add_building`: gold-gated construction; also credits the
building's income to the player. -/
def playerAddBuilding (s : GameState) (pid : Nat) (bt : BuildingType)
    (pos : Pos) : Option Nat × GameState :=
  match getPlayer s pid with
  | none => (none, s)
  | some p =>
    if canAfford p (buildingData bt).cost then
      let bid := s.nextId
      let s1 := { s with bldStore := s.bldStore ++ [(bid, mkBuilding bt pid pos)],
                         nextId := bid + 1 }
      (some bid, setPlayer s1 pid (some { p with
        gold := p.gold - (buildingData bt).cost,
        buildings := p.buildings ++ [bid],
        income := p.income + (buildingData bt).income }))
    else (none, s)

/-- Integers from `lo` to `hi` inclusive (a Python `range(lo, hi+1)`). -/
def intRange (lo hi : Int) : List Int :=
  (List.range (hi - lo + 1).toNat).map (fun i => lo + (i : Int))

/-- The coordinates generated by `Game._create_initial_grid`'s two loops,
in insertion order. -/
def gridKeys (radius : Int) : List Pos :=
  (intRange (-radius) radius).flatMap (fun q =>
    (intRange (max (-radius) (-q - radius)) (min radius (-q + radius))).map
      (fun r => (q, r)))

/-- `Game._create_initial_grid` for a given terrain draw. -/
def initialGrid (T : Pos → Terrain) (radius : Int) : List (Pos × HexTile) :=
  (gridKeys radius).map (fun p => (p, ⟨none, none, none, T p⟩))

/-- The fixed list in `Game._setup_initial_positions`. -/
def startingPositions : List Pos :=
  [(-8, -8), (8, 8), (8, -8), (-8, 8)]

/-- One iteration of `_setup_initial_positions`: when `pos` is a grid key,
claim the tile for player `i` and place a fresh Capital and a fresh
Infantry on it (constructed directly, not through the gold-gated
operations; the unit's `position` attribute is never set). -/
def setupAt (s : GameState) (i : Nat) (pos : Pos) : GameState :=
  if gridHas s pos then
    let bid := s.nextId
    let uid := s.nextId + 1
    let s1 := { s with
      bldStore := s.bldStore ++ [(bid, mkBuilding BuildingType.capital i pos)],
      unitStore := s.unitStore ++ [(uid, mkUnit UnitType.infantry i)],
      nextId := s.nextId + 2 }
    let s2 := updTile s1 pos (fun t =>
      { t with owner := some i, building := some bid, unit := some uid })
    updPlayer s2 i (fun p =>
      { p with buildings := p.buildings ++ [bid], units := p.units ++ [uid] })
  else s

/-- The `Game` state just before `_setup_initial_positions`. -/
def newGameStart (T : Pos → Terrain) : GameState :=
  ⟨initialGrid T 10,
   [some (newPlayer 0 false), some (newPlayer 1 true),
    some (newPlayer 2 true), some (newPlayer 3 true)],
   [], [], 0, 0, none, 1⟩

/-- `Game.__init__` (second iteration): radius-10 grid, four players
(player 0 human, 1-3 bots), initial positions, player 0 to move, turn 1. -/
def newGame (T : Pos → Terrain) : GameState :=
  setupAt (setupAt (setupAt (setupAt (newGameStart T) 0 (-8, -8)) 1 (8, 8))
    2 (8, -8)) 3 (-8, 8)

/-- `Game.resolve_combat`.  Mutation order follows the source: defender
health, attacker health, `has_attacked`, then the two removal checks.  A
dead defender is cleared from `defender_tile` and its owner's roster; a
dead attacker is cleared from the tile at `self.selected_tile` — not from
its own tile — and `self.grid[None]` (no selection) or a non-key selection
raises, which the embedding marks by `none`.  The source's `list.remove`
raises on a missing element; rosters hold each id once in every reachable
state, so the embedding uses first-occurrence erasure. -/
def resolveCombat (s : GameState) (attId defId : Nat) (defPos : Pos) :
    Option GameState :=
  match getUnit s attId, getUnit s defId, getTile s defPos with
  | some att, some dfd, some defTile =>
    let attackPower : ℚ := ((unitData att.utype).attack : ℚ) * (att.health / 100)
    let defensePower : ℚ :=
      (((unitData dfd.utype).defense + tileDefenseBonus s defTile : Int) : ℚ) *
        (dfd.health / 100)
    let dmgD := pymax 0 (attackPower - defensePower / 2)
    let dmgA := pymax 0 (defensePower - attackPower / 2)
    let s1 := updUnit s defId (fun u => { u with health := u.health - dmgD })
    let s2 := updUnit s1 attId (fun u =>
      { u with health := u.health - dmgA, hasAttacked := true })
    let s3 :=
      if dfd.health - dmgD ≤ 0 then
        updPlayer (updTile s2 defPos (fun t => { t with unit := none }))
          dfd.owner (fun p => { p with units := p.units.erase defId })
      else s2
    if att.health - dmgA ≤ 0 then
      match s.selectedTile with
      | none => none
      | some sel =>
        if gridHas s3 sel then
          some (updPlayer (updTile s3 sel (fun t => { t with unit := none }))
            att.owner (fun p => { p with units := p.units.erase attId }))
        else none
    else some s3
  | _, _, _ => none

/-- One building iteration of `_eliminate_player`: clear the building's
tile content and ownership (`self.grid[building.position]` raises on a
non-key position). -/
def elimBldStep (st : GameState) (bid : Nat) : Option GameState :=
  match getBld st bid with
  | none => none
  | some b =>
    if gridHas st b.position then
      some (updTile st b.position (fun t =>
        { t with building := none, owner := none }))
    else none

/-- One unit iteration of `_eliminate_player`: clear the tile under the
unit — reading `unit.position`, which raises when never assigned. -/
def elimUnitStep (st : GameState) (uid : Nat) : Option GameState :=
  match getUnit st uid with
  | none => none
  | some u =>
    match u.position with
    | none => none
    | some upos =>
      if gridHas st upos then
        some (updTile st upos (fun t => { t with unit := none }))
      else none

/-- `Game._eliminate_player`: clear every roster building's tile, clear
the tile under every roster unit, then null the player slot.  `none`
marks any of the source's raises. -/
def eliminatePlayer (s : GameState) (pid : Nat) : Option GameState :=
  match getPlayer s pid with
  | none => none
  | some p =>
    match p.buildings.foldlM elimBldStep s with
    | none => none
    | some s1 =>
      match p.units.foldlM elimUnitStep s1 with
      | none => none
      | some s2 => some (setPlayer s2 pid none)

/-- `Game._attack_building`: health-scaled damage; a destroyed building is
cleared from its tile and roster, and a destroyed Capital eliminates its
owner. -/
def attackBuilding (s : GameState) (attId bldId : Nat) : Option GameState :=
  match getUnit s attId, getBld s bldId with
  | some u, some b =>
    let dmg : ℚ := ((unitData u.utype).attack : ℚ) * (u.health / 100)
    let s1 := updBld s bldId (fun bb => { bb with health := bb.health - dmg })
    if b.health - dmg ≤ 0 then
      if gridHas s1 b.position then
        let s2 := updTile s1 b.position (fun t => { t with building := none })
        let s3 := updPlayer s2 b.owner (fun p =>
          { p with buildings := p.buildings.erase bldId })
        if b.btype = BuildingType.capital then eliminatePlayer s3 b.owner
        else some s3
      else none
    else some s1
  | _, _ => none

/-- The index selection of `Game.end_turn`'s advance-and-skip loop: the
first alive slot at offsets `1, 2, …` from `current`, cyclically.  With no
alive player the source's `while` never terminates (`none` here). -/
def nextAlive (players : List (Option Player)) (cur : Nat) : Option Nat :=
  (List.range players.length).findSome? (fun i =>
    let j := (cur + 1 + i) % players.length
    match players.get? j with
    | some (some _) => some j
    | _ => none)

/-- `Unit.reset_turn`. -/
def resetUnit (u : GameUnit) : GameUnit :=
  { u with movesLeft := (unitData u.utype).movement, hasAttacked := false }

/-- One iteration of `end_turn`'s crediting loop: skip an eliminated
slot, otherwise credit the income and reset every roster unit. -/
def endTurnCredit (st : GameState) (i : Nat) : GameState :=
  match getPlayer st i with
  | none => st
  | some p =>
    p.units.foldl (fun st2 uid => updUnit st2 uid resetUnit)
      (setPlayer st i (some { p with gold := p.gold + p.income }))

/-- `Game.end_turn`: advance `current_player` skipping eliminated slots,
bump the turn counter, then credit every alive player's income and reset
every unit of theirs. -/
def endTurn (s : GameState) : Option GameState :=
  match nextAlive s.players s.currentPlayer with
  | none => none
  | some j =>
    let s1 := { s with currentPlayer := j, turn := s.turn + 1 }
    some ((List.range s1.players.length).foldl endTurnCredit s1)

/-- The scan of `Game._bot_build` over the grid's insertion order: on each
owned, building-free, non-water tile draw a building type (the draw is the
oracle `bchoice`, one independent draw per candidate tile); build on the
first affordable draw and stop, otherwise keep scanning.  `bot.buildings[-1]`
is the id just appended. -/
def botBuildGo (s : GameState) (pid : Nat) (bchoice : Pos → BuildingType) :
    List (Pos × HexTile) → GameState
  | [] => s
  | (pos, _) :: rest =>
    match getTile s pos, getPlayer s pid with
    | some tile, some bot =>
      if tile.owner = some pid ∧ tile.building = none ∧
          tile.terrain ≠ Terrain.water then
        if canAfford bot (buildingData (bchoice pos)).cost then
          let s1 := (playerAddBuilding s pid (bchoice pos) pos).2
          match getPlayer s1 pid with
          | some bot1 =>
            match bot1.buildings.getLast? with
            | some bid => updTile s1 pos (fun t => { t with building := some bid })
            | none => s1
          | none => s1
        else botBuildGo s pid bchoice rest
      else botBuildGo s pid bchoice rest
    | _, _ => botBuildGo s pid bchoice rest

/-- `Game._bot_build`: gated on `gold >= 300`. -/
def botBuild (s : GameState) (pid : Nat) (bchoice : Pos → BuildingType) :
    GameState :=
  match getPlayer s pid with
  | none => s
  | some bot => if bot.gold ≥ 300 then botBuildGo s pid bchoice s.grid else s

/-- The neighbour scan of `Game._bot_create_units`: the first grid
neighbour of `pos` without a unit. -/
def findSpot (s : GameState) (pos : Pos) : Option Pos :=
  (nbrs (fun p => gridHas s p) pos).find? (fun n =>
    match getTile s n with
    | some t => t.unit = none
    | none => false)

/-- The roster scan of `Game._bot_create_units`: at the first Barracks or
Capital with an empty adjacent tile, produce the drawn unit there and
stop. -/
def botCreateGo (s : GameState) (pid : Nat) (ut : UnitType) :
    List Nat → GameState
  | [] => s
  | bid :: rest =>
    match getBld s bid with
    | none => botCreateGo s pid ut rest
    | some b =>
      if b.btype = BuildingType.barracks ∨ b.btype = BuildingType.capital then
        match findSpot s b.position with
        | some npos =>
          match playerAddUnit s pid ut with
          | (some uid, s1) => updTile s1 npos (fun t => { t with unit := some uid })
          | (none, _) => botCreateGo s pid ut rest
        | none => botCreateGo s pid ut rest
      else botCreateGo s pid ut rest

/-- `Game._bot_create_units`: gated on `gold >= 200` and on affording the
single drawn unit type (the draw is the oracle `uchoice`). -/
def botCreateUnits (s : GameState) (pid : Nat) (uchoice : UnitType) :
    GameState :=
  match getPlayer s pid with
  | none => s
  | some bot =>
    if bot.gold ≥ 200 then
      if canAfford bot (unitData uchoice).cost then
        botCreateGo s pid uchoice bot.buildings
      else s
    else s

/-- `Game._find_nearest_enemy`: linear scan of the grid in insertion order
for a tile not owned by the bot that holds a unit or a building; strict
distance improvement, so ties keep the first-seen tile. -/
def findNearestEnemy (s : GameState) (pid : Nat) (upos : Pos) : Option Pos :=
  (s.grid.foldl (fun (acc : Option (Pos × Int)) e =>
    if e.2.owner ≠ some pid ∧ (e.2.unit.isSome ∨ e.2.building.isSome) then
      match acc with
      | none => some (e.1, hexDistance upos e.1)
      | some (bp, bd) =>
        if hexDistance upos e.1 < bd then some (e.1, hexDistance upos e.1)
        else some (bp, bd)
    else acc) none).map Prod.fst

/-- The per-unit body of `Game._bot_move_units`: a unit with moves left
approaches the nearest enemy along `_find_path` (landing on the path's
last tile, spending all movement) and attacks the target tile's occupant
when in range.  Reading `unit.position` raises (`none`) when the attribute
was never assigned. -/
def botMoveStep (s : GameState) (pid : Nat) (uid : Nat) : Option GameState :=
  match getUnit s uid with
  | none => none
  | some u =>
    if u.movesLeft > 0 then
      match u.position with
      | none => none
      | some upos =>
        match findNearestEnemy s pid upos with
        | none => some s
        | some target =>
          match (findPath (terrainOf s) (fun p => gridHas s p) upos target
              u.movesLeft.toNat).getLast? with
          | none => some s
          | some newPos =>
            let s1 := updTile s newPos (fun t => { t with unit := some uid })
            let s2 := updTile s1 upos (fun t => { t with unit := none })
            let s3 := updUnit s2 uid (fun uu =>
              { uu with position := some newPos, movesLeft := 0 })
            if hexDistance newPos target ≤ (unitData u.utype).range then
              match getTile s3 target with
              | none => none
              | some tt =>
                match tt.unit with
                | some defId => resolveCombat s3 uid defId target
                | none =>
                  match tt.building with
                  | some bid => attackBuilding s3 uid bid
                  | none => some s3
            else some s3
    else some s

/-- The index-based iteration of `Game._bot_move_units` over the bot's
live roster (combat may remove entries mid-loop, shifting later ones, as
Python's list iterator does).  `fuel` only bounds the recursion; the
initial value `length + 1` is enough because the roster never grows during
the phase, so the `0` branch is unreachable — it returns `none` so that
nothing true of a `some` result could depend on the truncation. -/
def botMoveGo (pid : Nat) : Nat → GameState → Nat → Option GameState
  | 0, _, _ => none
  | n + 1, s, i =>
    match getPlayer s pid with
    | none => some s
    | some bot =>
      if h : i < bot.units.length then
        match botMoveStep s pid (bot.units.get ⟨i, h⟩) with
        | none => none
        | some s1 => botMoveGo pid n s1 (i + 1)
      else some s

/-- `Game._bot_move_units`. -/
def botMoveUnits (s : GameState) (pid : Nat) : Option GameState :=
  match getPlayer s pid with
  | none => some s
  | some bot => botMoveGo pid (bot.units.length + 1) s 0

/-- Phase 1 of `Game.run_bot_turn`: `bot.gold += bot.income`. -/
def afterCollect (s : GameState) (pid : Nat) : GameState :=
  match getPlayer s pid with
  | none => s
  | some bot => setPlayer s pid (some { bot with gold := bot.gold + bot.income })

/-- `Game.run_bot_turn`: income collection, build, produce, move, then
`end_turn`. -/
def runBotTurn (s : GameState) (pid : Nat) (bchoice : Pos → BuildingType)
    (uchoice : UnitType) : Option GameState :=
  match getPlayer s pid with
  | none => none
  | some _ =>
    match botMoveUnits
        (botCreateUnits (botBuild (afterCollect s pid) pid bchoice) pid uchoice)
        pid with
    | none => none
    | some s4 => endTurn s4

/-- The spec's cost-weighted reachability for `reachable_tiles`: from
`start` with `budget` movement points, entering a tile consumes its
terrain cost (water never enterable); `CostReach p b` holds when `p` can
be reached with `b` points left. -/
inductive CostReach (T : Pos → Terrain) (G : Pos → Bool) (start : Pos)
    (budget : Int) : Pos → Int → Prop where
  | base : CostReach T G start budget start budget
  | step {p b q} : CostReach T G start budget p b → q ∈ nbrs G p →
      T q ≠ Terrain.water → terrainMoveCost (T q) ≤ b →
      CostReach T G start budget q (b - terrainMoveCost (T q))

/-- Unit-step reachability with a step budget, entered tiles non-water:
what `get_tiles_in_range` actually explores.  `StepReach p m` holds when
`p` can be reached with `m` steps of the budget left. -/
inductive StepReach (T : Pos → Terrain) (G : Pos → Bool) (start : Pos)
    (movement : Nat) : Pos → Nat → Prop where
  | base : StepReach T G start movement start movement
  | step {p m q} : StepReach T G start movement p m → 0 < m →
      q ∈ nbrs G p → T q ≠ Terrain.water →
      StepReach T G start movement q (m - 1)

/-- A walk of `n` unit steps from `p` to `q` through the grid, every tile
entered being non-water (the start tile is not constrained). -/
inductive Walk (T : Pos → Terrain) (G : Pos → Bool) : Pos → Pos → Nat → Prop
    where
  | refl (p) : Walk T G p p 0
  | step {p q r n} : q ∈ nbrs G p → T q ≠ Terrain.water →
      Walk T G q r n → Walk T G p r (n + 1)

/-- Repeated `end_turn` calls (`none` once any call diverges). -/
def iterEndTurn : Nat → GameState → Option GameState
  | 0, s => some s
  | n + 1, s =>
    match endTurn s with
    | none => none
    | some s1 => iterEndTurn n s1

/-- The gold of player `pid` (0 for an eliminated slot). -/
def goldOf (s : GameState) (pid : Nat) : Int :=
  match getPlayer s pid with
  | some p => p.gold
  | none => 0

/-- The income of player `pid` (0 for an eliminated slot). -/
def incomeOf (s : GameState) (pid : Nat) : Int :=
  match getPlayer s pid with
  | some p => p.income
  | none => 0

/-- Exactly player 2 is alive in a four-slot player list. -/
def aliveOnly2 (s : GameState) : Prop :=
  ∃ p, s.players = [none, none, some p, none]

/-- One legal step of a path: the next tile is an in-grid neighbour and is
not water. -/
def PathStep (T : Pos → Terrain) (G : Pos → Bool) : Pos → Pos → Prop :=
  fun a b => b ∈ nbrs G a ∧ T b ≠ Terrain.water

/-- A well-formed returned path: starts at `start`, ends at `endP`, and
each consecutive pair is a legal step. -/
def PathSeqOk (T : Pos → Terrain) (G : Pos → Bool) (start endP : Pos)
    (l : List Pos) : Prop :=
  l.head? = some start ∧ l.getLast? = some endP ∧
    List.Chain' (PathStep T G) l

/-- A well-formed queue entry of `_find_path`: a nonempty legal path from
`start` to the entry's node. -/
def EntryOk (T : Pos → Terrain) (G : Pos → Bool) (start : Pos)
    (e : Pos × List Pos) : Prop :=
  e.2 ≠ [] ∧ e.2.head? = some start ∧ e.2.getLast? = some e.1 ∧
    List.Chain' (PathStep T G) e.2

/-- A walk whose entered tiles additionally avoid the set `V` (the start
tile is not constrained). -/
inductive AvoidWalk (T : Pos → Terrain) (G : Pos → Bool) (V : List Pos) :
    Pos → Pos → Nat → Prop where
  | refl (p) : AvoidWalk T G V p p 0
  | step {p q r n} : q ∈ nbrs G p → T q ≠ Terrain.water → q ∉ V →
      AvoidWalk T G V q r n → AvoidWalk T G V p r (n + 1)

/-- The breadth-first-search invariant of `_find_path`'s loop state used
for the completeness direction: queue path lengths are positive, sorted,
and within one of each other, and some queue entry still leads to the
target within the bound along a walk avoiding the visited set. -/
structure BfsInv (T : Pos → Terrain) (G : Pos → Bool) (endP : Pos) (M : Nat)
    (Q : List (Pos × List Pos)) (V : List Pos) : Prop where
  len_pos : ∀ e ∈ Q, 1 ≤ e.2.length
  sorted : List.Sorted (· ≤ ·) (Q.map (fun e => e.2.length))
  gap : ∀ e1 ∈ Q, ∀ e2 ∈ Q, e1.2.length ≤ e2.2.length + 1
  wit : ∃ e ∈ Q, ∃ j, AvoidWalk T G V e.1 endP j ∧ e.2.length + j ≤ M

/-- All-plain terrain. -/
def TP : Pos → Terrain := fun _ => Terrain.plain

/-- All-water terrain. -/
def TW : Pos → Terrain := fun _ => Terrain.water

/-- Terrain with a single forest tile at (1, 0). -/
def T1 : Pos → Terrain := fun p =>
  if p = ((1 : Int), (0 : Int)) then Terrain.forest else Terrain.plain

/-- A one-tile grid. -/
def G1 : Pos → Bool := fun p => p = ((0 : Int), (0 : Int))

/-- A two-tile grid. -/
def G2 : Pos → Bool := fun p =>
  p = ((0 : Int), (0 : Int)) ∨ p = ((1 : Int), (0 : Int))

/-- A bot with the claimed initial resources and nothing on the board. -/
def cexBot : Player := ⟨0, true, 1000, 100, [], []⟩

/-- A minimal state in which `cexBot` runs a full turn without building,
producing, or moving. -/
def cexS2 : GameState :=
  ⟨[], [some cexBot, none, none, none], [], [], 0, 0, none, 1⟩

/-- Combat fixture: a weakened Infantry of player 0 on (0, 0) attacks a
full-health Tank of player 1 on a mountain Capital tile (1, 0), while the
game's selected tile is (2, 0), which holds an uninvolved unit of
player 0. -/
def cexS4 : GameState :=
  ⟨[(((0 : Int), (0 : Int)), ⟨none, some 0, none, Terrain.plain⟩),
    (((1 : Int), (0 : Int)), ⟨some 1, some 1, some 5, Terrain.mountain⟩),
    (((2 : Int), (0 : Int)), ⟨none, some 2, none, Terrain.plain⟩)],
   [some ⟨0, false, 1000, 100, [], [0, 2]⟩,
    some ⟨1, true, 1000, 100, [5], [1]⟩],
   [(0, ⟨UnitType.infantry, 0, 10, 2, false, some (0, 0)⟩),
    (1, ⟨UnitType.tank, 1, 100, 3, false, some (1, 0)⟩),
    (2, ⟨UnitType.infantry, 0, 100, 2, false, some (2, 0)⟩)],
   [(5, ⟨BuildingType.capital, 1, (1, 0), 100, 1⟩)],
   6, 0, some (2, 0), 1⟩

/-- The same fixture with nothing selected (`self.selected_tile = None`). -/
def cexS4b : GameState := { cexS4 with selectedTile := none }

/-- The spec's scenario 2: Infantry of player 0 on a plain tile attacks
Infantry of player 1 standing on a forest tile. -/
def cexS6 : GameState :=
  ⟨[(((0 : Int), (0 : Int)), ⟨none, some 0, none, Terrain.plain⟩),
    (((1 : Int), (0 : Int)), ⟨none, some 1, none, Terrain.forest⟩)],
   [some ⟨0, false, 1000, 100, [], [0]⟩,
    some ⟨1, true, 1000, 100, [], [1]⟩],
   [(0, ⟨UnitType.infantry, 0, 100, 2, false, some (0, 0)⟩),
    (1, ⟨UnitType.infantry, 1, 100, 2, false, some (1, 0)⟩)],
   [], 2, 0, none, 1⟩

/-- A state in which players 0, 1 and 3 are eliminated. -/
def cexS7 : GameState :=
  ⟨[], [none, none, some ⟨2, true, 1000, 100, [], []⟩, none], [], [], 0, 0,
   none, 1⟩

/-- A one-player state with no gold. -/
def cexS9 : GameState :=
  ⟨[], [some ⟨0, false, 0, 100, [], []⟩], [], [], 0, 0, none, 1⟩

/-- A player with gold 450: every unit (cost ≤ 400) is affordable, while
a Capital (cost 500) is not. -/
def cexS9b : GameState :=
  ⟨[], [some ⟨0, false, 450, 100, [], []⟩], [], [], 0, 0, none, 1⟩

/-- Building-attack fixture: a full-health Aircraft of player 0 attacks a
damaged Mine of player 1 on tile (1, 0). -/
def cexS8b : GameState :=
  ⟨[(((1 : Int), (0 : Int)), ⟨some 1, none, some 5, Terrain.plain⟩)],
   [some ⟨0, false, 1000, 100, [], [0]⟩, some ⟨1, true, 1000, 100, [5], []⟩],
   [(0, ⟨UnitType.aircraft, 0, 100, 2, false, some (0, 0)⟩)],
   [(5, ⟨BuildingType.mine, 1, (1, 0), 10, 1⟩)], 6, 0, none, 1⟩

/-!
Theorems.  First a toolbox of lemmas about the association-list state
accessors, then one theorem per claim (with witnesses and counterexamples
where due).
-/

theorem alookup_cons {κ α : Type} [DecidableEq κ] (a : κ) (b : α)
    (t : List (κ × α)) (k : κ) :
    alookup ((a, b) :: t) k = if a = k then some b else alookup t k := by
  by_cases h : a = k <;> simp [alookup, List.find?_cons, h]

theorem aupdate_cons {κ α : Type} [DecidableEq κ] (a : κ) (b : α)
    (t : List (κ × α)) (k : κ) (f : α → α) :
    aupdate ((a, b) :: t) k f =
      (if a = k then (a, f b) else (a, b)) :: aupdate t k f := by
  simp only [aupdate, List.map_cons]

theorem alookup_aupdate_eq {κ α : Type} [DecidableEq κ]
    (l : List (κ × α)) (k : κ) (f : α → α) :
    alookup (aupdate l k f) k = (alookup l k).map f := by
  induction l with
  | nil => rfl
  | cons e t ih =>
    obtain ⟨a, b⟩ := e
    rw [aupdate_cons]
    by_cases h : a = k
    · simp [h, alookup_cons]
    · rw [if_neg h, alookup_cons, alookup_cons, if_neg h, if_neg h, ih]

theorem alookup_aupdate_ne {κ α : Type} [DecidableEq κ]
    (l : List (κ × α)) (k k' : κ) (f : α → α) (h : k ≠ k') :
    alookup (aupdate l k f) k' = alookup l k' := by
  induction l with
  | nil => rfl
  | cons e t ih =>
    obtain ⟨a, b⟩ := e
    rw [aupdate_cons]
    by_cases hk : a = k
    · have ha : ¬ a = k' := by rw [hk]; exact h
      rw [if_pos hk, alookup_cons, alookup_cons, if_neg ha, if_neg ha, ih]
    · rw [if_neg hk, alookup_cons, alookup_cons, ih]

theorem alookup_aupdate {κ α : Type} [DecidableEq κ]
    (l : List (κ × α)) (k k' : κ) (f : α → α) :
    alookup (aupdate l k f) k' =
      if k = k' then (alookup l k').map f else alookup l k' := by
  by_cases h : k = k'
  · subst h; simp [alookup_aupdate_eq]
  · simp [h, alookup_aupdate_ne _ _ _ _ h]

theorem getTile_updTile (s : GameState) (p : Pos) (f : HexTile → HexTile)
    (q : Pos) :
    getTile (updTile s p f) q =
      if p = q then (getTile s q).map f else getTile s q := by
  simp [getTile, updTile, alookup_aupdate]

theorem getUnit_updUnit (s : GameState) (i : Nat) (f : GameUnit → GameUnit)
    (j : Nat) :
    getUnit (updUnit s i f) j =
      if i = j then (getUnit s j).map f else getUnit s j := by
  simp [getUnit, updUnit, alookup_aupdate]

theorem getBld_updBld (s : GameState) (i : Nat) (f : Building → Building)
    (j : Nat) :
    getBld (updBld s i f) j =
      if i = j then (getBld s j).map f else getBld s j := by
  simp [getBld, updBld, alookup_aupdate]

theorem getTile_updUnit (s : GameState) (i : Nat) (f : GameUnit → GameUnit)
    (q : Pos) : getTile (updUnit s i f) q = getTile s q := rfl

theorem getTile_updBld (s : GameState) (i : Nat) (f : Building → Building)
    (q : Pos) : getTile (updBld s i f) q = getTile s q := rfl

theorem getTile_setPlayer (s : GameState) (i : Nat) (po : Option Player)
    (q : Pos) : getTile (setPlayer s i po) q = getTile s q := rfl

theorem getTile_updPlayer (s : GameState) (i : Nat) (f : Player → Player)
    (q : Pos) : getTile (updPlayer s i f) q = getTile s q := by
  unfold updPlayer
  cases getPlayer s i <;> rfl

theorem getUnit_updTile (s : GameState) (p : Pos) (f : HexTile → HexTile)
    (j : Nat) : getUnit (updTile s p f) j = getUnit s j := rfl

theorem getUnit_updBld (s : GameState) (i : Nat) (f : Building → Building)
    (j : Nat) : getUnit (updBld s i f) j = getUnit s j := rfl

theorem getUnit_setPlayer (s : GameState) (i : Nat) (po : Option Player)
    (j : Nat) : getUnit (setPlayer s i po) j = getUnit s j := rfl

theorem getUnit_updPlayer (s : GameState) (i : Nat) (f : Player → Player)
    (j : Nat) : getUnit (updPlayer s i f) j = getUnit s j := by
  unfold updPlayer
  cases getPlayer s i <;> rfl

theorem getBld_updTile (s : GameState) (p : Pos) (f : HexTile → HexTile)
    (j : Nat) : getBld (updTile s p f) j = getBld s j := rfl

theorem getBld_updUnit (s : GameState) (i : Nat) (f : GameUnit → GameUnit)
    (j : Nat) : getBld (updUnit s i f) j = getBld s j := rfl

theorem getBld_setPlayer (s : GameState) (i : Nat) (po : Option Player)
    (j : Nat) : getBld (setPlayer s i po) j = getBld s j := rfl

theorem getBld_updPlayer (s : GameState) (i : Nat) (f : Player → Player)
    (j : Nat) : getBld (updPlayer s i f) j = getBld s j := by
  unfold updPlayer
  cases getPlayer s i <;> rfl

theorem getPlayer_updTile (s : GameState) (p : Pos) (f : HexTile → HexTile)
    (j : Nat) : getPlayer (updTile s p f) j = getPlayer s j := rfl

theorem getPlayer_updUnit (s : GameState) (i : Nat) (f : GameUnit → GameUnit)
    (j : Nat) : getPlayer (updUnit s i f) j = getPlayer s j := rfl

theorem getPlayer_updBld (s : GameState) (i : Nat) (f : Building → Building)
    (j : Nat) : getPlayer (updBld s i f) j = getPlayer s j := rfl

theorem getPlayer_setPlayer (s : GameState) (i : Nat) (po : Option Player)
    (j : Nat) :
    getPlayer (setPlayer s i po) j =
      if i = j ∧ j < s.players.length then po else getPlayer s j := by
  unfold getPlayer setPlayer
  by_cases hij : i = j
  · subst hij
    by_cases hlen : i < s.players.length
    · simp [hlen, List.get?_eq_getElem?, List.getElem?_set_self hlen]
    · have : s.players.set i po = s.players := List.set_eq_of_length_le (by omega)
      simp [hlen, this]
  · simp [hij, List.get?_eq_getElem?, List.getElem?_set_ne hij]

theorem getPlayer_updPlayer (s : GameState) (i : Nat) (f : Player → Player)
    (j : Nat) (h : i ≠ j) : getPlayer (updPlayer s i f) j = getPlayer s j := by
  unfold updPlayer
  cases hg : getPlayer s i with
  | none => rfl
  | some p => simp [getPlayer_setPlayer, h]

/-- C10: for every input `(q, r)`, `Game._round_hex` returns exactly the
componentwise rounding `(round q, round r)`: its difference variables
compare each rounded value with itself and are therefore always 0, so the
two cube-constraint correction branches are unreachable. -/
theorem roundHex_is_componentwise (q r : ℚ) :
    roundHex q r = (pyRound q, pyRound r) := by
  simp [roundHex]

/-- C9: for every player state and every unit or building type,
independently, when the player's gold is below that type's cost the
corresponding operation — `Player.add_unit` for a unit type,
`Player.add_building` for a building type — returns no entity and leaves
the whole game state (player fields, rosters, stores, and grid)
unchanged, so the failed call repeats without side effects. -/
theorem add_reject_no_mutation (s : GameState) (pid : Nat) (p : Player)
    (ut : UnitType) (bt : BuildingType) (pos : Pos)
    (hp : getPlayer s pid = some p) :
    (p.gold < (unitData ut).cost → playerAddUnit s pid ut = (none, s)) ∧
    (p.gold < (buildingData bt).cost →
      playerAddBuilding s pid bt pos = (none, s)) := by
  constructor
  · intro hu
    have hcu : canAfford p (unitData ut).cost = false := by
      simp [canAfford]; omega
    unfold playerAddUnit
    rw [hp]
    simp [hcu]
  · intro hb
    have hcb : canAfford p (buildingData bt).cost = false := by
      simp [canAfford]; omega
    unfold playerAddBuilding
    rw [hp]
    simp [hcb]

/-- Witness for C9: a broke player's unit production rejects (gold 0 <
every unit cost), and a player with gold 450 — enough for any unit —
still has a Capital build (cost 500) rejected, both with the state
returned untouched. -/
theorem add_reject_no_mutation_witness :
    playerAddUnit cexS9 0 UnitType.infantry = (none, cexS9) ∧
      playerAddBuilding cexS9b 0 BuildingType.capital (0, 0) =
        (none, cexS9b) :=
  ⟨(add_reject_no_mutation cexS9 0 ⟨0, false, 0, 100, [], []⟩
      UnitType.infantry BuildingType.capital (0, 0) (by decide)).1
    (by decide),
   (add_reject_no_mutation cexS9b 0 ⟨0, false, 450, 100, [], []⟩
      UnitType.infantry BuildingType.capital (0, 0) (by decide)).2
    (by decide)⟩

/-- C6: `resolve_combat` computes `attack_power = attack · health/100`,
`defense_power = (defense + tile bonus) · health/100`, applies
`max 0 (attack_power − defense_power/2)` to the defender and
`max 0 (defense_power − attack_power/2)` to the attacker simultaneously,
and sets `has_attacked` unconditionally; in the spec's Forest scenario
both infantries drop to 97.5 health, neither dies, and the attacker has
attacked. -/
theorem resolveCombat_formula :
    (∀ (s : GameState) (attId defId : Nat) (defPos : Pos)
      (att dfd : GameUnit) (defTile : HexTile) (s' : GameState),
      getUnit s attId = some att → getUnit s defId = some dfd →
      getTile s defPos = some defTile → attId ≠ defId →
      resolveCombat s attId defId defPos = some s' →
      getUnit s' attId = some { att with
        health := att.health - pymax 0
          ((((unitData dfd.utype).defense + tileDefenseBonus s defTile : Int) : ℚ) *
            (dfd.health / 100) -
           ((unitData att.utype).attack : ℚ) * (att.health / 100) / 2),
        hasAttacked := true } ∧
      getUnit s' defId = some { dfd with
        health := dfd.health - pymax 0
          (((unitData att.utype).attack : ℚ) * (att.health / 100) -
           (((unitData dfd.utype).defense + tileDefenseBonus s defTile : Int) : ℚ) *
            (dfd.health / 100) / 2) }) ∧
    ((resolveCombat cexS6 0 1 (1, 0)).map
        (fun s2 => (getUnit s2 0).map GameUnit.health) = some (some (195/2)) ∧
     (resolveCombat cexS6 0 1 (1, 0)).map
        (fun s2 => (getUnit s2 1).map GameUnit.health) = some (some (195/2)) ∧
     (resolveCombat cexS6 0 1 (1, 0)).map
        (fun s2 => (getUnit s2 0).map GameUnit.hasAttacked) =
          some (some true) ∧
     (resolveCombat cexS6 0 1 (1, 0)).map
        (fun s2 => (getTile s2 (0, 0)).map HexTile.unit) =
          some (some (some 0)) ∧
     (resolveCombat cexS6 0 1 (1, 0)).map
        (fun s2 => (getTile s2 (1, 0)).map HexTile.unit) =
          some (some (some 1)) ∧
     (resolveCombat cexS6 0 1 (1, 0)).map
        (fun s2 => (getPlayer s2 0).map Player.units) = some (some [0]) ∧
     (resolveCombat cexS6 0 1 (1, 0)).map
        (fun s2 => (getPlayer s2 1).map Player.units) = some (some [1])) := by
  constructor
  · intro s attId defId defPos att dfd defTile s' ha hd ht hne hres
    have hne' : defId ≠ attId := fun hc => hne hc.symm
    unfold resolveCombat at hres
    rw [ha, hd, ht] at hres
    simp only [] at hres
    repeat' split at hres
    all_goals first
      | exact Option.noConfusion hres
      | (obtain rfl := Option.some.inj hres
         refine ⟨?_, ?_⟩ <;>
           simp [getUnit_updPlayer, getUnit_updTile, getUnit_updUnit,
             ha, hd, hne, hne'])
  · refine ⟨?_, ?_, ?_, ?_, ?_, ?_, ?_⟩ <;> with_unfolding_all decide

/-- Witness for C6's hypothesised general part, instantiated at the
Forest scenario state. -/
theorem resolveCombat_formula_witness :
    getUnit cexS6 0 = some ⟨UnitType.infantry, 0, 100, 2, false, some (0, 0)⟩ ∧
    (resolveCombat cexS6 0 1 (1, 0)).isSome = true := by
  constructor
  · decide
  · cases hres : resolveCombat cexS6 0 1 (1, 0) with
    | none => exact absurd hres (by with_unfolding_all decide)
    | some s' =>
      have := (resolveCombat_formula.1 cexS6 0 1 (1, 0)
        ⟨UnitType.infantry, 0, 100, 2, false, some (0, 0)⟩
        ⟨UnitType.infantry, 1, 100, 2, false, some (1, 0)⟩
        ⟨none, some 1, none, Terrain.forest⟩ s'
        (by decide) (by decide) (by decide) (by decide) hres).1
      simp [hres]

/-- C4 (code-bug evidence): in `resolve_combat`, a dead attacker is not
cleared from its own tile — the source clears the unit at
`self.grid[self.selected_tile]`.  At `cexS4` the attacker on (0, 0) dies
and stays on (0, 0) while the uninvolved unit on the selected tile (2, 0)
is evicted; the attacker is still removed from its owner's roster; and
with no selection (`selected_tile = None`) the same combat raises
(`self.grid[None]`), marked `none` in the embedding. -/
theorem resolveCombat_selected_tile_bug :
    (resolveCombat cexS4 0 1 (1, 0)).map
        (fun s2 => (getTile s2 (0, 0)).map HexTile.unit) =
          some (some (some 0)) ∧
    (resolveCombat cexS4 0 1 (1, 0)).map
        (fun s2 => (getTile s2 (2, 0)).map HexTile.unit) = some (some none) ∧
    (resolveCombat cexS4 0 1 (1, 0)).map
        (fun s2 => (getPlayer s2 0).map Player.units) = some (some [2]) ∧
    (resolveCombat cexS4 0 1 (1, 0)).map
        (fun s2 => (getUnit s2 0).map GameUnit.health) =
          some (some (-23/4)) ∧
    resolveCombat cexS4b 0 1 (1, 0) = none := by
  refine ⟨?_, ?_, ?_, ?_, ?_⟩ <;> with_unfolding_all decide

/-- Counterexample to C8 as stated: after the Forest duel the defender's
health is 97.5 — a rational with denominator 2, not an integer. -/
theorem health_integrality_counterexample :
    (resolveCombat cexS6 0 1 (1, 0)).map
        (fun s2 => (getUnit s2 1).map GameUnit.health) =
          some (some (195/2)) ∧
    (195/2 : ℚ).den = 2 := by
  refine ⟨?_, ?_⟩ <;> with_unfolding_all decide

theorem pymax_nonneg (x : ℚ) : 0 ≤ pymax 0 x := by
  unfold pymax
  split
  · assumption
  · exact le_refl 0

theorem getPlayer_some_lt (s : GameState) (i : Nat) (p : Player)
    (h : getPlayer s i = some p) : i < s.players.length := by
  unfold getPlayer at h
  cases hg : s.players.get? i with
  | none => rw [hg] at h; exact absurd h (by simp)
  | some po => exact List.get?_eq_some.mp hg |>.1

theorem getPlayer_updPlayer_self (s : GameState) (i : Nat)
    (f : Player → Player) :
    getPlayer (updPlayer s i f) i = (getPlayer s i).map f := by
  unfold updPlayer
  cases hg : getPlayer s i with
  | none => simp [hg]
  | some p =>
    have hlt := getPlayer_some_lt s i p hg
    simp [getPlayer_setPlayer, hlt, hg]

theorem foldlM_preserve {σ α : Type} (P : σ → Prop)
    (f : σ → α → Option σ)
    (hf : ∀ st a st', f st a = some st' → P st → P st') :
    ∀ (l : List α) (st st' : σ), l.foldlM f st = some st' → P st → P st' := by
  intro l
  induction l with
  | nil =>
    intro st st' h hp
    simp [List.foldlM] at h
    exact h ▸ hp
  | cons a t ih =>
    intro st st' h hp
    rw [List.foldlM_cons] at h
    cases hf1 : f st a with
    | none => rw [hf1] at h; exact absurd h (by simp)
    | some st1 =>
      rw [hf1] at h
      exact ih st1 st' h (hf st a st1 hf1 hp)

/-- A single `_eliminate_player` tile rewrite leaves both stores and the
player list alone, and never writes a building onto a tile. -/
theorem elimStep_effects (st : GameState) (a : Nat) (st' : GameState)
    (h : elimBldStep st a = some st' ∨ elimUnitStep st a = some st') :
    (∀ j, getBld st' j = getBld st j) ∧ (∀ j, getUnit st' j = getUnit st j) ∧
    st'.players = st.players ∧
    (∀ pos, (getTile st pos).map HexTile.building = some none →
      (getTile st' pos).map HexTile.building = some none) := by
  have htile : ∀ (p0 : Pos) (f : HexTile → HexTile),
      (∀ t, (f t).building = none ∨ (f t).building = t.building) →
      ∀ pos, (getTile st pos).map HexTile.building = some none →
        (getTile (updTile st p0 f) pos).map HexTile.building = some none := by
    intro p0 f hf pos hp
    rw [getTile_updTile]
    split
    · cases hgt : getTile st pos with
      | none => rw [hgt] at hp; exact absurd hp (by simp)
      | some t =>
        rw [hgt] at hp
        simp at hp
        rcases hf t with hcase | hcase <;> simp [hcase, hp]
    · exact hp
  rcases h with h | h
  · unfold elimBldStep at h
    repeat' split at h
    all_goals first
      | exact Option.noConfusion h
      | (obtain rfl := Option.some.inj h
         exact ⟨fun j => rfl, fun j => rfl, rfl,
           htile _ _ (fun t => Or.inl rfl)⟩)
  · unfold elimUnitStep at h
    repeat' split at h
    all_goals first
      | exact Option.noConfusion h
      | (obtain rfl := Option.some.inj h
         exact ⟨fun j => rfl, fun j => rfl, rfl,
           htile _ _ (fun t => Or.inr rfl)⟩)

/-- `_eliminate_player` only rewrites tiles and then nulls the slot:
unit and building stores are untouched, empty building slots stay empty,
and the player list only loses the eliminated slot. -/
theorem eliminatePlayer_effects (s : GameState) (pid : Nat) (s' : GameState)
    (h : eliminatePlayer s pid = some s') :
    (∀ j, getBld s' j = getBld s j) ∧ (∀ j, getUnit s' j = getUnit s j) ∧
    s'.players = s.players.set pid none ∧
    (∀ pos, (getTile s pos).map HexTile.building = some none →
      (getTile s' pos).map HexTile.building = some none) := by
  unfold eliminatePlayer at h
  split at h
  · exact Option.noConfusion h
  next p hg =>
    split at h
    · exact Option.noConfusion h
    next s1 h1 =>
      split at h
      · exact Option.noConfusion h
      next s2 h2 =>
        obtain rfl := Option.some.inj h
        have P1 := foldlM_preserve (fun st =>
            (∀ j, getBld st j = getBld s j) ∧
            (∀ j, getUnit st j = getUnit s j) ∧ st.players = s.players ∧
            (∀ pos, (getTile s pos).map HexTile.building = some none →
              (getTile st pos).map HexTile.building = some none))
          elimBldStep (by
            intro st a st' hst hp
            obtain ⟨e1, e2, e3, e4⟩ := elimStep_effects st a st' (Or.inl hst)
            exact ⟨fun j => (e1 j).trans (hp.1 j),
              fun j => (e2 j).trans (hp.2.1 j), e3.trans hp.2.2.1,
              fun pos hpos => e4 pos (hp.2.2.2 pos hpos)⟩)
          p.buildings s s1 h1 ⟨fun j => rfl, fun j => rfl, rfl, fun pos hp => hp⟩
        have P2 := foldlM_preserve (fun st =>
            (∀ j, getBld st j = getBld s j) ∧
            (∀ j, getUnit st j = getUnit s j) ∧ st.players = s.players ∧
            (∀ pos, (getTile s pos).map HexTile.building = some none →
              (getTile st pos).map HexTile.building = some none))
          elimUnitStep (by
            intro st a st' hst hp
            obtain ⟨e1, e2, e3, e4⟩ := elimStep_effects st a st' (Or.inr hst)
            exact ⟨fun j => (e1 j).trans (hp.1 j),
              fun j => (e2 j).trans (hp.2.1 j), e3.trans hp.2.2.1,
              fun pos hpos => e4 pos (hp.2.2.2 pos hpos)⟩)
          p.units s1 s2 h2 P1
        refine ⟨fun j => P2.1 j, fun j => P2.2.1 j, ?_, fun pos hp => P2.2.2.2 pos hp⟩
        show s2.players.set pid none = s.players.set pid none
        rw [P2.2.2.1]

/-- After `_eliminate_player`, the eliminated slot reads `None` and the
others are unchanged. -/
theorem eliminatePlayer_getPlayer (s : GameState) (pid : Nat) (s' : GameState)
    (h : eliminatePlayer s pid = some s') (j : Nat) :
    getPlayer s' j = if pid = j then none else getPlayer s j := by
  have hset := (eliminatePlayer_effects s pid s' h).2.2.1
  have hpl : ∃ p, getPlayer s pid = some p := by
    unfold eliminatePlayer at h
    cases hg : getPlayer s pid with
    | none => rw [hg] at h; exact absurd h (by simp)
    | some p => exact ⟨p, rfl⟩
  obtain ⟨p, hp⟩ := hpl
  have hlt := getPlayer_some_lt s pid p hp
  unfold getPlayer
  rw [hset]
  by_cases hj : pid = j
  · subst hj
    simp [List.get?_eq_getElem?, List.getElem?_set_self hlt]
  · simp [hj, List.get?_eq_getElem?, List.getElem?_set_ne hj]

theorem sub_pymax_le (a x : ℚ) : a - pymax 0 x ≤ a := by
  have := pymax_nonneg x
  linarith

theorem getPlayer_updPlayer_cases (s : GameState) (i : Nat)
    (f : Player → Player) (j : Nat) :
    getPlayer (updPlayer s i f) j =
      if i = j then (getPlayer s j).map f else getPlayer s j := by
  by_cases h : i = j
  · subst h; simp [getPlayer_updPlayer_self]
  · simp [h, getPlayer_updPlayer _ _ _ _ h]

/-- Erasing `x` from the roster of player `i` removes it (the roster was
duplicate-free). -/
theorem roster_after_erase (s0 : GameState) (i x : Nat)
    (hnd : ∀ p, getPlayer s0 i = some p → p.units.Nodup) :
    ∀ p', getPlayer (updPlayer s0 i
        (fun p => { p with units := p.units.erase x })) i = some p' →
      x ∉ p'.units := by
  intro p' hp'
  rw [getPlayer_updPlayer_self] at hp'
  cases hg : getPlayer s0 i with
  | none => rw [hg] at hp'; exact absurd hp' (by simp)
  | some p =>
    rw [hg] at hp'
    simp at hp'
    rw [← hp']
    intro hc
    exact absurd (((hnd p hg).mem_erase_iff).mp hc).1 (by simp)

/-- A later roster erasure cannot re-introduce an absent id. -/
theorem roster_erase_mono (s0 : GameState) (i j x y : Nat)
    (hab : ∀ p', getPlayer s0 i = some p' → x ∉ p'.units) :
    ∀ p', getPlayer (updPlayer s0 j
        (fun p => { p with units := p.units.erase y })) i = some p' →
      x ∉ p'.units := by
  intro p' hp'
  rw [getPlayer_updPlayer_cases] at hp'
  by_cases hji : j = i
  · rw [if_pos hji] at hp'
    cases hg : getPlayer s0 i with
    | none => rw [hg] at hp'; exact absurd hp' (by simp)
    | some p =>
      rw [hg] at hp'
      simp at hp'
      rw [← hp']
      exact fun hc => hab p hg (List.mem_of_mem_erase hc)
  · rw [if_neg hji] at hp'
    exact hab p' hp'

/-- Building-roster versions of the two erasure lemmas. -/
theorem broster_after_erase (s0 : GameState) (i x : Nat)
    (hnd : ∀ p, getPlayer s0 i = some p → p.buildings.Nodup) :
    ∀ p', getPlayer (updPlayer s0 i
        (fun p => { p with buildings := p.buildings.erase x })) i = some p' →
      x ∉ p'.buildings := by
  intro p' hp'
  rw [getPlayer_updPlayer_self] at hp'
  cases hg : getPlayer s0 i with
  | none => rw [hg] at hp'; exact absurd hp' (by simp)
  | some p =>
    rw [hg] at hp'
    simp at hp'
    rw [← hp']
    intro hc
    exact absurd (((hnd p hg).mem_erase_iff).mp hc).1 (by simp)

theorem unit_attack_nonneg (ut : UnitType) : 0 ≤ (unitData ut).attack := by
  cases ut <;> decide

/-- C8 (amended): through `resolve_combat` and `_attack_building`, health
values are rationals that never increase (so an entity that started at
100 stays at most 100, but need not stay integral); a unit or building
whose post-damage health is ≤ 0 is removed from its owner's
duplicate-free roster in the same operation, and the defender (resp. the
building) is also cleared from its tile — the attacker's own tile is not
part of this guarantee (see the selected-tile behaviour). -/
theorem combat_health_monotone_and_removal :
    (∀ (s : GameState) (attId defId : Nat) (defPos : Pos)
        (att dfd : GameUnit) (defTile : HexTile) (s' : GameState),
      getUnit s attId = some att → getUnit s defId = some dfd →
      getTile s defPos = some defTile → attId ≠ defId →
      (∀ i p, getPlayer s i = some p → p.units.Nodup) →
      resolveCombat s attId defId defPos = some s' →
      (∀ j u u', getUnit s j = some u → getUnit s' j = some u' →
        u'.health ≤ u.health) ∧
      (dfd.health - pymax 0 (((unitData att.utype).attack : ℚ) *
          (att.health / 100) -
          (((unitData dfd.utype).defense + tileDefenseBonus s defTile : Int) : ℚ) *
          (dfd.health / 100) / 2) ≤ 0 →
        (getTile s' defPos).map HexTile.unit = some none ∧
        ∀ p', getPlayer s' dfd.owner = some p' → defId ∉ p'.units) ∧
      (att.health - pymax 0
          ((((unitData dfd.utype).defense + tileDefenseBonus s defTile : Int) : ℚ) *
          (dfd.health / 100) -
          ((unitData att.utype).attack : ℚ) * (att.health / 100) / 2) ≤ 0 →
        ∀ p', getPlayer s' att.owner = some p' → attId ∉ p'.units)) ∧
    (∀ (s : GameState) (attId bldId : Nat) (u : GameUnit) (b : Building)
        (s' : GameState),
      getUnit s attId = some u → getBld s bldId = some b → 0 ≤ u.health →
      (∀ i p, getPlayer s i = some p → p.buildings.Nodup) →
      attackBuilding s attId bldId = some s' →
      (∀ j bb bb', getBld s j = some bb → getBld s' j = some bb' →
        bb'.health ≤ bb.health) ∧
      (b.health - ((unitData u.utype).attack : ℚ) * (u.health / 100) ≤ 0 →
        (getTile s' b.position).map HexTile.building = some none ∧
        ∀ p', getPlayer s' b.owner = some p' → bldId ∉ p'.buildings)) := by
  constructor
  · intro s attId defId defPos att dfd defTile s' ha hd ht hne hnodup hres
    have hne' : defId ≠ attId := fun hc => hne hc.symm
    unfold resolveCombat at hres
    rw [ha, hd, ht] at hres
    simp only [] at hres
    have monotone_goal : ∀ (sx : GameState),
        (∀ j, getUnit sx j = getUnit (updUnit (updUnit s defId (fun uu =>
          ⟨uu.utype, uu.owner,
           uu.health - pymax 0
             (((unitData att.utype).attack : ℚ) * (att.health / 100) -
               (((unitData dfd.utype).defense + tileDefenseBonus s defTile : Int) : ℚ) *
               (dfd.health / 100) / 2),
           uu.movesLeft, uu.hasAttacked, uu.position⟩)) attId (fun uu =>
          ⟨uu.utype, uu.owner,
           uu.health - pymax 0
             ((((unitData dfd.utype).defense + tileDefenseBonus s defTile : Int) : ℚ) *
               (dfd.health / 100) -
               ((unitData att.utype).attack : ℚ) * (att.health / 100) / 2),
           uu.movesLeft, true, uu.position⟩)) j) →
        ∀ j u u', getUnit s j = some u → getUnit sx j = some u' →
          u'.health ≤ u.health := by
      intro sx hview j u u' hu hu'
      rw [hview j, getUnit_updUnit, getUnit_updUnit] at hu'
      by_cases hja : attId = j
      · rw [if_pos hja, if_neg (by omega : ¬ defId = j), hu] at hu'
        simp only [Option.map_some'] at hu'
        obtain rfl := Option.some.inj hu'
        exact sub_pymax_le _ _
      · rw [if_neg hja] at hu'
        by_cases hjd : defId = j
        · rw [if_pos hjd, hu] at hu'
          simp only [Option.map_some'] at hu'
          obtain rfl := Option.some.inj hu'
          exact sub_pymax_le _ _
        · rw [if_neg hjd, hu] at hu'
          obtain rfl := Option.some.inj hu'
          exact le_refl _
    by_cases hD : dfd.health - pymax 0
        (((unitData att.utype).attack : ℚ) * (att.health / 100) -
          (((unitData dfd.utype).defense + tileDefenseBonus s defTile : Int) : ℚ) *
          (dfd.health / 100) / 2) ≤ 0
    · rw [if_pos hD] at hres
      by_cases hA : att.health - pymax 0
          ((((unitData dfd.utype).defense + tileDefenseBonus s defTile : Int) : ℚ) *
            (dfd.health / 100) -
            ((unitData att.utype).attack : ℚ) * (att.health / 100) / 2) ≤ 0
      · rw [if_pos hA] at hres
        split at hres
        · exact Option.noConfusion hres
        next sel heqsel =>
          split at hres
          · obtain rfl := Option.some.inj hres
            refine ⟨monotone_goal _ (fun j => by
              simp only [getUnit_updPlayer, getUnit_updTile]), ?_, ?_⟩
            · intro _
              constructor
              · simp only [getTile_updPlayer, getTile_updTile, getTile_updUnit]
                split
                · rw [ht]; simp
                · rw [ht]; simp
              · apply roster_erase_mono
                intro p' hp'
                rw [getPlayer_updTile] at hp'
                exact roster_after_erase _ _ _ (fun p hp => by
                  simp only [getPlayer_updTile, getPlayer_updUnit] at hp
                  exact hnodup _ _ hp) p' hp'
            · intro _
              apply roster_after_erase
              intro p hp
              simp only [getPlayer_updTile] at hp
              rw [getPlayer_updPlayer_cases] at hp
              by_cases ho : dfd.owner = att.owner
              · rw [if_pos ho] at hp
                rw [Option.map_eq_some'] at hp
                obtain ⟨q, hq, rfl⟩ := hp
                refine List.Nodup.erase _ ?_
                simp only [getPlayer_updTile, getPlayer_updUnit] at hq
                exact hnodup _ _ hq
              · rw [if_neg ho] at hp
                simp only [getPlayer_updTile, getPlayer_updUnit] at hp
                exact hnodup _ _ hp
          · exact Option.noConfusion hres
      · rw [if_neg hA] at hres
        obtain rfl := Option.some.inj hres
        refine ⟨monotone_goal _ (fun j => by
          simp only [getUnit_updPlayer, getUnit_updTile]), ?_,
          fun hA' => absurd hA' hA⟩
        intro _
        constructor
        · simp only [getTile_updPlayer, getTile_updTile, getTile_updUnit]
          rw [ht]
          simp
        · apply roster_after_erase
          intro p hp
          simp only [getPlayer_updTile, getPlayer_updUnit] at hp
          exact hnodup _ _ hp
    · rw [if_neg hD] at hres
      by_cases hA : att.health - pymax 0
          ((((unitData dfd.utype).defense + tileDefenseBonus s defTile : Int) : ℚ) *
            (dfd.health / 100) -
            ((unitData att.utype).attack : ℚ) * (att.health / 100) / 2) ≤ 0
      · rw [if_pos hA] at hres
        split at hres
        · exact Option.noConfusion hres
        next sel heqsel =>
          split at hres
          · obtain rfl := Option.some.inj hres
            refine ⟨monotone_goal _ (fun j => by
              simp only [getUnit_updPlayer, getUnit_updTile]),
              fun hD' => absurd hD' hD, ?_⟩
            intro _
            apply roster_after_erase
            intro p hp
            simp only [getPlayer_updTile, getPlayer_updUnit] at hp
            exact hnodup _ _ hp
          · exact Option.noConfusion hres
      · rw [if_neg hA] at hres
        obtain rfl := Option.some.inj hres
        exact ⟨monotone_goal _ (fun j => rfl),
          fun hD' => absurd hD' hD, fun hA' => absurd hA' hA⟩
  · intro s attId bldId u b s' hu hb hupos hnodup hres
    have hdmg : 0 ≤ ((unitData u.utype).attack : ℚ) * (u.health / 100) := by
      have h1 : (0 : ℚ) ≤ ((unitData u.utype).attack : ℚ) := by
        exact_mod_cast unit_attack_nonneg u.utype
      have h2 : (0 : ℚ) ≤ u.health / 100 := by positivity
      exact mul_nonneg h1 h2
    unfold attackBuilding at hres
    rw [hu, hb] at hres
    simp only [] at hres
    by_cases hDead : b.health - ((unitData u.utype).attack : ℚ) *
        (u.health / 100) ≤ 0
    · rw [if_pos hDead] at hres
      split at hres
      next hgr =>
        by_cases hcap : b.btype = BuildingType.capital
        · rw [if_pos hcap] at hres
          refine ⟨?_, ?_⟩
          · intro j bb bb' hbb hbb'
            rw [(eliminatePlayer_effects _ _ _ hres).1 j] at hbb'
            simp only [getBld_updPlayer, getBld_updTile] at hbb'
            rw [getBld_updBld] at hbb'
            by_cases hj : bldId = j
            · rw [if_pos hj, hbb] at hbb'
              simp only [Option.map_some'] at hbb'
              obtain rfl := Option.some.inj hbb'
              show bb.health - _ ≤ bb.health
              linarith
            · rw [if_neg hj, hbb] at hbb'
              obtain rfl := Option.some.inj hbb'
              exact le_refl _
          · intro _
            constructor
            · refine (eliminatePlayer_effects _ _ _ hres).2.2.2 b.position ?_
              simp only [getTile_updPlayer, getTile_updTile, getTile_updBld]
              have : gridHas (updBld s bldId fun bb =>
                  { bb with health := bb.health -
                    ((unitData u.utype).attack : ℚ) * (u.health / 100) })
                  b.position = true := hgr
              unfold gridHas at this
              cases hgt : getTile (updBld s bldId fun bb =>
                  { bb with health := bb.health -
                    ((unitData u.utype).attack : ℚ) * (u.health / 100) })
                  b.position with
              | none => rw [hgt] at this; exact absurd this (by simp)
              | some t =>
                rw [getTile_updBld] at hgt
                rw [hgt]
                simp
            · intro p' hp'
              rw [eliminatePlayer_getPlayer _ _ _ hres] at hp'
              rw [if_pos rfl] at hp'
              exact Option.noConfusion hp'
        · rw [if_neg hcap] at hres
          obtain rfl := Option.some.inj hres
          refine ⟨?_, ?_⟩
          · intro j bb bb' hbb hbb'
            simp only [getBld_updPlayer, getBld_updTile] at hbb'
            rw [getBld_updBld] at hbb'
            by_cases hj : bldId = j
            · rw [if_pos hj, hbb] at hbb'
              simp only [Option.map_some'] at hbb'
              obtain rfl := Option.some.inj hbb'
              show bb.health - _ ≤ bb.health
              linarith
            · rw [if_neg hj, hbb] at hbb'
              obtain rfl := Option.some.inj hbb'
              exact le_refl _
          · intro _
            constructor
            · simp only [getTile_updPlayer, getTile_updTile, getTile_updBld]
              have hgr2 := hgr
              unfold gridHas at hgr2
              cases hgt : getTile (updBld s bldId fun bb =>
                  { bb with health := bb.health -
                    ((unitData u.utype).attack : ℚ) * (u.health / 100) })
                  b.position with
              | none => rw [hgt] at hgr2; exact absurd hgr2 (by simp)
              | some t =>
                rw [getTile_updBld] at hgt
                rw [hgt]
                simp
            · apply broster_after_erase
              intro p hp
              simp only [getPlayer_updTile, getPlayer_updBld] at hp
              exact hnodup _ _ hp
      next hgr => exact Option.noConfusion hres
    · rw [if_neg hDead] at hres
      obtain rfl := Option.some.inj hres
      refine ⟨?_, fun hc => absurd hc hDead⟩
      intro j bb bb' hbb hbb'
      rw [getBld_updBld] at hbb'
      by_cases hj : bldId = j
      · rw [if_pos hj, hbb] at hbb'
        simp only [Option.map_some'] at hbb'
        obtain rfl := Option.some.inj hbb'
        show bb.health - _ ≤ bb.health
        linarith
      · rw [if_neg hj, hbb] at hbb'
        obtain rfl := Option.some.inj hbb'
        exact le_refl _

/-- Witness for C8's amended theorem, applying both halves at concrete
states: the dead attacker of `cexS4` leaves player 0's roster, and the
destroyed Mine of `cexS8b` leaves its tile. -/
theorem combat_health_monotone_and_removal_witness :
    ((resolveCombat cexS4 0 1 (1, 0)).map
       (fun s2 => (getPlayer s2 0).map (fun p => decide (0 ∈ p.units))) =
         some (some false)) ∧
    ((attackBuilding cexS8b 0 5).map
       (fun s2 => (getTile s2 (1, 0)).map HexTile.building) =
         some (some none)) := by
  constructor
  · cases hres : resolveCombat cexS4 0 1 (1, 0) with
    | none => exact absurd hres (by with_unfolding_all decide)
    | some s4 =>
      have hnd : ∀ i p, getPlayer cexS4 i = some p → p.units.Nodup := by
        intro i p hp
        rcases i with _ | _ | i
        · rw [show getPlayer cexS4 0 =
              some ⟨0, false, 1000, 100, [], [0, 2]⟩ from by decide] at hp
          obtain rfl := Option.some.inj hp
          decide
        · rw [show getPlayer cexS4 1 =
              some ⟨1, true, 1000, 100, [5], [1]⟩ from by decide] at hp
          obtain rfl := Option.some.inj hp
          decide
        · rw [show getPlayer cexS4 (i + 2) = none from by
            simp [getPlayer, cexS4, List.get?]] at hp
          exact Option.noConfusion hp
      have HA := (combat_health_monotone_and_removal.1 cexS4 0 1 (1, 0)
        ⟨UnitType.infantry, 0, 10, 2, false, some (0, 0)⟩
        ⟨UnitType.tank, 1, 100, 3, false, some (1, 0)⟩
        ⟨some 1, some 1, some 5, Terrain.mountain⟩ s4
        (by decide) (by decide) (by decide) (by decide) hnd hres).2.2
        (by with_unfolding_all decide)
      have hsome : (getPlayer s4 0).isSome = true := by
        have hev : (resolveCombat cexS4 0 1 (1, 0)).map
            (fun s2 => (getPlayer s2 0).isSome) = some true := by
          with_unfolding_all decide
        rw [hres] at hev
        simpa using hev
      cases hgp : getPlayer s4 0 with
      | none => rw [hgp] at hsome; exact absurd hsome (by simp)
      | some p =>
        have hnm := HA p hgp
        simp only [Option.map_some', hgp]
        simp [hnm]
  · cases hres : attackBuilding cexS8b 0 5 with
    | none => exact absurd hres (by with_unfolding_all decide)
    | some s8 =>
      have hnd : ∀ i p, getPlayer cexS8b i = some p → p.buildings.Nodup := by
        intro i p hp
        rcases i with _ | _ | i
        · rw [show getPlayer cexS8b 0 =
              some ⟨0, false, 1000, 100, [], [0]⟩ from by decide] at hp
          obtain rfl := Option.some.inj hp
          decide
        · rw [show getPlayer cexS8b 1 =
              some ⟨1, true, 1000, 100, [5], []⟩ from by decide] at hp
          obtain rfl := Option.some.inj hp
          decide
        · rw [show getPlayer cexS8b (i + 2) = none from by
            simp [getPlayer, cexS8b, List.get?]] at hp
          exact Option.noConfusion hp
      have HB := (combat_health_monotone_and_removal.2 cexS8b 0 5
        ⟨UnitType.aircraft, 0, 100, 2, false, some (0, 0)⟩
        ⟨BuildingType.mine, 1, (1, 0), 10, 1⟩ s8
        (by decide) (by decide) (by decide) hnd hres).2
        (by with_unfolding_all decide)
      simp only [Option.map_some']
      exact congrArg some (by simpa using HB.1)

theorem foldl_resetUnits_players (l : List Nat) :
    ∀ st : GameState,
      (l.foldl (fun st2 uid => updUnit st2 uid resetUnit) st).players
        = st.players := by
  induction l with
  | nil => intro st; rfl
  | cons a t ih => intro st; rw [List.foldl_cons]; exact ih _

theorem foldl_resetUnits_current (l : List Nat) :
    ∀ st : GameState,
      (l.foldl (fun st2 uid => updUnit st2 uid resetUnit) st).currentPlayer
        = st.currentPlayer := by
  induction l with
  | nil => intro st; rfl
  | cons a t ih => intro st; rw [List.foldl_cons]; exact ih _

theorem getPlayer_eq_of_players_eq (s1 s2 : GameState)
    (h : s1.players = s2.players) (j : Nat) :
    getPlayer s1 j = getPlayer s2 j := by
  unfold getPlayer
  rw [h]

theorem endTurnCredit_players_length (st : GameState) (i : Nat) :
    (endTurnCredit st i).players.length = st.players.length := by
  unfold endTurnCredit
  cases getPlayer st i with
  | none => rfl
  | some p =>
    rw [foldl_resetUnits_players]
    simp [setPlayer]

theorem endTurnCredit_current (st : GameState) (i : Nat) :
    (endTurnCredit st i).currentPlayer = st.currentPlayer := by
  unfold endTurnCredit
  cases getPlayer st i with
  | none => rfl
  | some p => rw [foldl_resetUnits_current]; rfl

theorem getPlayer_endTurnCredit (st : GameState) (i j : Nat) :
    getPlayer (endTurnCredit st i) j =
      if i = j then (getPlayer st j).map
        (fun p => { p with gold := p.gold + p.income })
      else getPlayer st j := by
  unfold endTurnCredit
  cases hg : getPlayer st i with
  | none =>
    by_cases hij : i = j
    · subst hij; rw [if_pos rfl, hg]; rfl
    · rw [if_neg hij]
  | some p =>
    have hlt := getPlayer_some_lt st i p hg
    rw [getPlayer_eq_of_players_eq _ _ (foldl_resetUnits_players _ _) j]
    by_cases hij : i = j
    · subst hij
      rw [if_pos rfl, hg, getPlayer_setPlayer, if_pos ⟨rfl, hlt⟩]
      rfl
    · rw [if_neg hij, getPlayer_setPlayer, if_neg (by tauto)]

theorem foldl_endTurnCredit_current (l : List Nat) :
    ∀ st : GameState,
      (l.foldl endTurnCredit st).currentPlayer = st.currentPlayer := by
  induction l with
  | nil => intro st; rfl
  | cons a t ih =>
    intro st
    rw [List.foldl_cons, ih, endTurnCredit_current]

theorem foldl_endTurnCredit_length (l : List Nat) :
    ∀ st : GameState,
      (l.foldl endTurnCredit st).players.length = st.players.length := by
  induction l with
  | nil => intro st; rfl
  | cons a t ih =>
    intro st
    rw [List.foldl_cons, ih, endTurnCredit_players_length]

theorem getPlayer_foldl_endTurnCredit (l : List Nat) :
    ∀ st : GameState, l.Nodup → ∀ j,
      getPlayer (l.foldl endTurnCredit st) j =
        if j ∈ l then (getPlayer st j).map
          (fun p => { p with gold := p.gold + p.income })
        else getPlayer st j := by
  induction l with
  | nil => intro st _ j; simp
  | cons a t ih =>
    intro st hnd j
    rw [List.foldl_cons, ih _ (List.nodup_cons.mp hnd).2 j,
      getPlayer_endTurnCredit]
    by_cases hjt : j ∈ t
    · have hja : ¬ a = j := fun hc =>
        (List.nodup_cons.mp hnd).1 (hc ▸ hjt)
      rw [if_pos hjt, if_neg hja, if_pos (List.mem_cons_of_mem a hjt)]
    · by_cases hja : a = j
      · subst hja
        rw [if_neg hjt, if_pos rfl, if_pos (List.mem_cons_self a t)]
      · rw [if_neg hjt, if_neg hja, if_neg (by
          rw [List.mem_cons]
          rintro (hc | hc)
          · exact hja hc.symm
          · exact hjt hc)]

/-- The advance-and-skip of `end_turn` always lands on slot 2 when it is
the only alive one, wherever the rotation starts. -/
theorem nextAlive_only2 (p : Player) (cur : Nat) :
    nextAlive [none, none, some p, none] cur = some 2 := by
  have hm : cur % 4 = 0 ∨ cur % 4 = 1 ∨ cur % 4 = 2 ∨ cur % 4 = 3 := by
    omega
  unfold nextAlive
  rw [show ([none, none, some p, none] : List (Option Player)).length = 4
    from rfl]
  rw [show List.range 4 = [0, 1, 2, 3] from by decide]
  rcases hm with h | h | h | h
  · have e0 : (cur + 1 + 0) % 4 = 1 := by omega
    have e1 : (cur + 1 + 1) % 4 = 2 := by omega
    simp [List.findSome?_cons, e0, e1]
  · have e0 : (cur + 1 + 0) % 4 = 2 := by omega
    simp [List.findSome?_cons, e0]
  · have e0 : (cur + 1 + 0) % 4 = 3 := by omega
    have e1 : (cur + 1 + 1) % 4 = 0 := by omega
    have e2 : (cur + 1 + 2) % 4 = 1 := by omega
    have e3 : (cur + 1 + 3) % 4 = 2 := by omega
    simp [List.findSome?_cons, e0, e1, e2, e3]
  · have e0 : (cur + 1 + 0) % 4 = 0 := by omega
    have e1 : (cur + 1 + 1) % 4 = 1 := by omega
    have e2 : (cur + 1 + 2) % 4 = 2 := by omega
    simp [List.findSome?_cons, e0, e1, e2]

/-- One `end_turn` from a state where only player 2 is alive: it lands on
player 2, keeps the other slots eliminated, and credits player 2's
income. -/
theorem endTurn_only2 (s : GameState) (hal : aliveOnly2 s) :
    ∃ s', endTurn s = some s' ∧ s'.currentPlayer = 2 ∧ aliveOnly2 s' := by
  obtain ⟨p, hp⟩ := hal
  obtain ⟨g, pl, us, bs, ni, cp, sel, tn⟩ := s
  have hpl : pl = [none, none, some p, none] := hp
  subst hpl
  unfold endTurn
  rw [show (GameState.mk g [none, none, some p, none] us bs ni cp sel
    tn).players = [none, none, some p, none] from rfl, nextAlive_only2]
  refine ⟨_, rfl, ?_, ?_⟩
  · rw [foldl_endTurnCredit_current]
  · show aliveOnly2 (List.foldl endTurnCredit
      ⟨g, [none, none, some p, none], us, bs, ni, 2, sel, tn + 1⟩
      [0, 1, 2, 3])
    have hchar := getPlayer_foldl_endTurnCredit [0, 1, 2, 3]
      (⟨g, [none, none, some p, none], us, bs, ni, 2, sel, tn + 1⟩ :
        GameState) (by decide)
    have hFlen : (List.foldl endTurnCredit
        (⟨g, [none, none, some p, none], us, bs, ni, 2, sel, tn + 1⟩ :
          GameState) [0, 1, 2, 3]).players.length = 4 := by
      rw [foldl_endTurnCredit_length]
      rfl
    refine ⟨{ p with gold := p.gold + p.income }, ?_⟩
    apply List.ext_get?
    intro j
    by_cases hj : j < 4
    · obtain ⟨v, hv⟩ : ∃ v, (List.foldl endTurnCredit
          (⟨g, [none, none, some p, none], us, bs, ni, 2, sel, tn + 1⟩ :
            GameState) [0, 1, 2, 3]).players.get? j = some v := by
        rw [List.get?_eq_getElem?]
        exact ⟨_, List.getElem?_eq_getElem (by omega)⟩
      have hgv : getPlayer (List.foldl endTurnCredit
          (⟨g, [none, none, some p, none], us, bs, ni, 2, sel, tn + 1⟩ :
            GameState) [0, 1, 2, 3]) j = v := by
        unfold getPlayer
        rw [hv]
        rfl
      rw [hv]
      interval_cases j
      · exact congrArg some (by rw [← hgv, hchar 0]; rfl)
      · exact congrArg some (by rw [← hgv, hchar 1]; rfl)
      · exact congrArg some (by rw [← hgv, hchar 2]; rfl)
      · exact congrArg some (by rw [← hgv, hchar 3]; rfl)
    · rw [List.get?_eq_getElem?, List.getElem?_eq_none (by omega),
        List.get?_eq_getElem?, List.getElem?_eq_none (by simp; omega)]

/-- C7: once players 0, 1 and 3 are eliminated (their slots are `None`),
every sequence of `end_turn` calls leaves the current player equal to 2:
the rotation never selects a not-alive player again. -/
theorem endTurn_keeps_player2 (n : Nat) :
    ∀ (s s' : GameState), aliveOnly2 s → 1 ≤ n →
      iterEndTurn n s = some s' →
      s'.currentPlayer = 2 ∧ aliveOnly2 s' := by
  induction n with
  | zero => intro s s' _ h1; omega
  | succ k ih =>
    intro s s' hal _ hiter
    obtain ⟨s1, he, hcur, hal1⟩ := endTurn_only2 s hal
    unfold iterEndTurn at hiter
    rw [he] at hiter
    cases k with
    | zero =>
      unfold iterEndTurn at hiter
      obtain rfl := Option.some.inj hiter
      exact ⟨hcur, hal1⟩
    | succ m => exact ih s1 s' hal1 (by omega) hiter

/-- Witness for C7: two `end_turn` calls from the concrete three-dead
state `cexS7` land on player 2 both times. -/
theorem endTurn_keeps_player2_witness :
    aliveOnly2 cexS7 ∧
    (iterEndTurn 2 cexS7).map GameState.currentPlayer = some 2 := by
  have hal : aliveOnly2 cexS7 := ⟨⟨2, true, 1000, 100, [], []⟩, rfl⟩
  refine ⟨hal, ?_⟩
  cases hiter : iterEndTurn 2 cexS7 with
  | none => exact absurd hiter (by decide)
  | some s' =>
    have := endTurn_keeps_player2 2 cexS7 s' hal (by omega) hiter
    simp [this.1]

theorem alookup_map_keys {κ α : Type} [DecidableEq κ] (l : List κ)
    (f : κ → α) (q : κ) :
    alookup (l.map (fun p => (p, f p))) q =
      if q ∈ l then some (f q) else none := by
  induction l with
  | nil => simp [alookup]
  | cons a t ih =>
    rw [List.map_cons, alookup_cons]
    by_cases h : a = q
    · subst h; simp
    · rw [if_neg h, ih]
      by_cases hq : q ∈ t
      · simp [hq, List.mem_cons_of_mem a hq]
      · have hnc : ¬ q ∈ a :: t := by
          rw [List.mem_cons]
          rintro (hc | hc)
          · exact h hc.symm
          · exact hq hc
        simp [hq, hnc]

theorem getTile_newGameStart (T : Pos → Terrain) (q : Pos) :
    getTile (newGameStart T) q =
      if q ∈ gridKeys 10 then some ⟨none, none, none, T q⟩ else none := by
  show alookup (initialGrid T 10) q = _
  unfold initialGrid
  rw [alookup_map_keys (gridKeys 10)
    (fun p => (⟨none, none, none, T p⟩ : HexTile)) q]
  congr 1

theorem setupAt_skip (s : GameState) (i : Nat) (pos : Pos)
    (h : gridHas s pos = false) : setupAt s i pos = s := by
  unfold setupAt
  simp [h]

theorem setupAt_build (s : GameState) (i : Nat) (pos : Pos)
    (h : gridHas s pos = true) :
    setupAt s i pos = updPlayer (updTile { s with
      bldStore := s.bldStore ++
        [(s.nextId, mkBuilding BuildingType.capital i pos)],
      unitStore := s.unitStore ++ [(s.nextId + 1, mkUnit UnitType.infantry i)],
      nextId := s.nextId + 2 } pos (fun t =>
        ⟨some i, some (s.nextId + 1), some s.nextId, t.terrain⟩)) i (fun p =>
      ⟨p.id, p.isBot, p.gold, p.income, p.buildings ++ [s.nextId],
       p.units ++ [s.nextId + 1]⟩) := by
  unfold setupAt
  simp [h]

theorem bldStore_updTile (s : GameState) (p : Pos) (f : HexTile → HexTile) :
    (updTile s p f).bldStore = s.bldStore := rfl

theorem bldStore_updPlayer (s : GameState) (i : Nat) (f : Player → Player) :
    (updPlayer s i f).bldStore = s.bldStore := by
  unfold updPlayer
  cases getPlayer s i <;> rfl

theorem unitStore_updTile (s : GameState) (p : Pos) (f : HexTile → HexTile) :
    (updTile s p f).unitStore = s.unitStore := rfl

theorem unitStore_updPlayer (s : GameState) (i : Nat) (f : Player → Player) :
    (updPlayer s i f).unitStore = s.unitStore := by
  unfold updPlayer
  cases getPlayer s i <;> rfl

theorem nextId_updTile (s : GameState) (p : Pos) (f : HexTile → HexTile) :
    (updTile s p f).nextId = s.nextId := rfl

theorem nextId_updPlayer (s : GameState) (i : Nat) (f : Player → Player) :
    (updPlayer s i f).nextId = s.nextId := by
  unfold updPlayer
  cases getPlayer s i <;> rfl

theorem getTile_setStores (s : GameState) (us : List (Nat × GameUnit))
    (bs : List (Nat × Building)) (ni : Nat) (q : Pos) :
    getTile { s with unitStore := us, bldStore := bs, nextId := ni } q =
      getTile s q := rfl

theorem getPlayer_setStores (s : GameState) (us : List (Nat × GameUnit))
    (bs : List (Nat × Building)) (ni : Nat) (j : Nat) :
    getPlayer { s with unitStore := us, bldStore := bs, nextId := ni } j =
      getPlayer s j := rfl

theorem bldStore_setStores (s : GameState) (us : List (Nat × GameUnit))
    (bs : List (Nat × Building)) (ni : Nat) :
    ({ s with unitStore := us, bldStore := bs, nextId := ni } :
      GameState).bldStore = bs := rfl

theorem unitStore_setStores (s : GameState) (us : List (Nat × GameUnit))
    (bs : List (Nat × Building)) (ni : Nat) :
    ({ s with unitStore := us, bldStore := bs, nextId := ni } :
      GameState).unitStore = us := rfl

theorem nextId_setStores (s : GameState) (us : List (Nat × GameUnit))
    (bs : List (Nat × Building)) (ni : Nat) :
    ({ s with unitStore := us, bldStore := bs, nextId := ni } :
      GameState).nextId = ni := rfl

theorem getBld_setStores (s : GameState) (us : List (Nat × GameUnit))
    (bs : List (Nat × Building)) (ni : Nat) (j : Nat) :
    getBld { s with unitStore := us, bldStore := bs, nextId := ni } j =
      alookup bs j := rfl

theorem getUnit_setStores (s : GameState) (us : List (Nat × GameUnit))
    (bs : List (Nat × Building)) (ni : Nat) (j : Nat) :
    getUnit { s with unitStore := us, bldStore := bs, nextId := ni } j =
      alookup us j := rfl

/-- C3, counterexample: on the radius-10 grid the positions `(-8,-8)` and
`(8,8)` are not grid keys, so `_setup_initial_positions` silently skips
players 0 and 1 (no capital, no infantry for them), and the hex distance
between `(-8,-8)` and `(8,8)` is 32, not 16. -/
theorem setup_positions_counterexample :
    hexDistance (-8, -8) (8, 8) = 32 ∧
    ¬ hexDistance (-8, -8) (8, 8) = 16 ∧
    getTile (newGame TP) (-8, -8) = none ∧
    (getPlayer (newGame TP) 0).map Player.buildings = some [] ∧
    (getPlayer (newGame TP) 0).map Player.units = some [] ∧
    (getPlayer (newGame TP) 1).map Player.buildings = some [] ∧
    (getPlayer (newGame TP) 1).map Player.units = some [] := by
  exact ⟨by decide, by decide, by decide, by decide, by decide, by decide,
    by decide⟩

/-- C3 (amended): `_setup_initial_positions` on the radius-10 grid skips
`(-8,-8)` and `(8,8)` (they are not grid keys), so players 0 and 1 start
with empty rosters; player 2 gets Capital id 0 and Infantry id 1 on
`(8,-8)` and player 3 gets Capital id 2 and Infantry id 3 on `(-8,8)`,
with the tiles owned accordingly, for every terrain draw `T`; the hex
distance between the two skipped positions is 32 and between the two
occupied capitals is 16. -/
theorem setup_positions_amended (T : Pos → Terrain) :
    getTile (newGame T) (-8, -8) = none ∧
    getTile (newGame T) (8, 8) = none ∧
    (getPlayer (newGame T) 0).map Player.buildings = some [] ∧
    (getPlayer (newGame T) 0).map Player.units = some [] ∧
    (getPlayer (newGame T) 1).map Player.buildings = some [] ∧
    (getPlayer (newGame T) 1).map Player.units = some [] ∧
    getTile (newGame T) (8, -8) = some ⟨some 2, some 1, some 0, T (8, -8)⟩ ∧
    getTile (newGame T) (-8, 8) = some ⟨some 3, some 3, some 2, T (-8, 8)⟩ ∧
    getBld (newGame T) 0 = some (mkBuilding BuildingType.capital 2 (8, -8)) ∧
    getUnit (newGame T) 1 = some (mkUnit UnitType.infantry 2) ∧
    getBld (newGame T) 2 = some (mkBuilding BuildingType.capital 3 (-8, 8)) ∧
    getUnit (newGame T) 3 = some (mkUnit UnitType.infantry 3) ∧
    (getPlayer (newGame T) 2).map Player.buildings = some [0] ∧
    (getPlayer (newGame T) 2).map Player.units = some [1] ∧
    (getPlayer (newGame T) 3).map Player.buildings = some [2] ∧
    (getPlayer (newGame T) 3).map Player.units = some [3] ∧
    hexDistance (-8, -8) (8, 8) = 32 ∧
    hexDistance (8, -8) (-8, 8) = 16 := by
  have hkA : ¬ ((-8 : Int), (-8 : Int)) ∈ gridKeys 10 := by decide
  have hkB : ¬ ((8 : Int), (8 : Int)) ∈ gridKeys 10 := by decide
  have hkC : ((8 : Int), (-8 : Int)) ∈ gridKeys 10 := by decide
  have hkD : ((-8 : Int), (8 : Int)) ∈ gridKeys 10 := by decide
  have heqC : ((8 : Int), (-8 : Int)) = ((8 : Int), (-8 : Int)) := rfl
  have heqD : ((-8 : Int), (8 : Int)) = ((-8 : Int), (8 : Int)) := rfl
  have hneDA : ¬ ((-8 : Int), (8 : Int)) = ((-8 : Int), (-8 : Int)) := by
    decide
  have hneCA : ¬ ((8 : Int), (-8 : Int)) = ((-8 : Int), (-8 : Int)) := by
    decide
  have hneDB : ¬ ((-8 : Int), (8 : Int)) = ((8 : Int), (8 : Int)) := by decide
  have hneCB : ¬ ((8 : Int), (-8 : Int)) = ((8 : Int), (8 : Int)) := by decide
  have hneDC : ¬ ((-8 : Int), (8 : Int)) = ((8 : Int), (-8 : Int)) := by
    decide
  have hneCD : ¬ ((8 : Int), (-8 : Int)) = ((-8 : Int), (8 : Int)) := by
    decide
  have hmA : gridHas (newGameStart T) (-8, -8) = false := by
    unfold gridHas
    rw [getTile_newGameStart, if_neg hkA]
    rfl
  have hmB : gridHas (newGameStart T) (8, 8) = false := by
    unfold gridHas
    rw [getTile_newGameStart, if_neg hkB]
    rfl
  have hmC : gridHas (newGameStart T) (8, -8) = true := by
    unfold gridHas
    rw [getTile_newGameStart, if_pos hkC]
    rfl
  have hmD : gridHas (setupAt (newGameStart T) 2 (8, -8)) (-8, 8) = true := by
    rw [setupAt_build _ _ _ hmC]
    unfold gridHas
    rw [getTile_updPlayer, getTile_updTile, if_neg hneCD, getTile_setStores,
      getTile_newGameStart, if_pos hkD]
    rfl
  unfold newGame
  rw [setupAt_skip _ _ _ hmA, setupAt_skip _ _ _ hmB,
    setupAt_build _ _ _ hmD, setupAt_build _ _ _ hmC]
  refine ⟨?_, ?_, ?_, ?_, ?_, ?_, ?_, ?_, ?_, ?_, ?_, ?_, ?_, ?_, ?_, ?_,
    by decide, by decide⟩
  · rw [getTile_updPlayer, getTile_updTile, if_neg hneDA, getTile_setStores,
      getTile_updPlayer, getTile_updTile, if_neg hneCA, getTile_setStores,
      getTile_newGameStart, if_neg hkA]
  · rw [getTile_updPlayer, getTile_updTile, if_neg hneDB, getTile_setStores,
      getTile_updPlayer, getTile_updTile, if_neg hneCB, getTile_setStores,
      getTile_newGameStart, if_neg hkB]
  · rw [getPlayer_updPlayer _ _ _ _ (by decide : (3 : Nat) ≠ 0),
      getPlayer_updTile, getPlayer_setStores,
      getPlayer_updPlayer _ _ _ _ (by decide : (2 : Nat) ≠ 0),
      getPlayer_updTile, getPlayer_setStores]
    rfl
  · rw [getPlayer_updPlayer _ _ _ _ (by decide : (3 : Nat) ≠ 0),
      getPlayer_updTile, getPlayer_setStores,
      getPlayer_updPlayer _ _ _ _ (by decide : (2 : Nat) ≠ 0),
      getPlayer_updTile, getPlayer_setStores]
    rfl
  · rw [getPlayer_updPlayer _ _ _ _ (by decide : (3 : Nat) ≠ 1),
      getPlayer_updTile, getPlayer_setStores,
      getPlayer_updPlayer _ _ _ _ (by decide : (2 : Nat) ≠ 1),
      getPlayer_updTile, getPlayer_setStores]
    rfl
  · rw [getPlayer_updPlayer _ _ _ _ (by decide : (3 : Nat) ≠ 1),
      getPlayer_updTile, getPlayer_setStores,
      getPlayer_updPlayer _ _ _ _ (by decide : (2 : Nat) ≠ 1),
      getPlayer_updTile, getPlayer_setStores]
    rfl
  · rw [getTile_updPlayer, getTile_updTile, if_neg hneDC, getTile_setStores,
      getTile_updPlayer, getTile_updTile, if_pos heqC, getTile_setStores,
      getTile_newGameStart, if_pos hkC]
    rfl
  · rw [getTile_updPlayer, getTile_updTile, if_pos heqD, getTile_setStores,
      getTile_updPlayer, getTile_updTile, if_neg hneCD, getTile_setStores,
      getTile_newGameStart, if_pos hkD]
    rfl
  · rw [getBld_updPlayer, getBld_updTile, getBld_setStores,
      bldStore_updPlayer, bldStore_updTile, bldStore_setStores,
      nextId_updPlayer, nextId_updTile, nextId_setStores]
    rfl
  · rw [getUnit_updPlayer, getUnit_updTile, getUnit_setStores,
      unitStore_updPlayer, unitStore_updTile, unitStore_setStores,
      nextId_updPlayer, nextId_updTile, nextId_setStores]
    rfl
  · rw [getBld_updPlayer, getBld_updTile, getBld_setStores,
      bldStore_updPlayer, bldStore_updTile, bldStore_setStores,
      nextId_updPlayer, nextId_updTile, nextId_setStores]
    rfl
  · rw [getUnit_updPlayer, getUnit_updTile, getUnit_setStores,
      unitStore_updPlayer, unitStore_updTile, unitStore_setStores,
      nextId_updPlayer, nextId_updTile, nextId_setStores]
    rfl
  · rw [getPlayer_updPlayer _ _ _ _ (by decide : (3 : Nat) ≠ 2),
      getPlayer_updTile, getPlayer_setStores, getPlayer_updPlayer_self,
      getPlayer_updTile, getPlayer_setStores]
    rfl
  · rw [getPlayer_updPlayer _ _ _ _ (by decide : (3 : Nat) ≠ 2),
      getPlayer_updTile, getPlayer_setStores, getPlayer_updPlayer_self,
      getPlayer_updTile, getPlayer_setStores]
    rfl
  · rw [getPlayer_updPlayer_self, getPlayer_updTile, getPlayer_setStores,
      getPlayer_updPlayer _ _ _ _ (by decide : (2 : Nat) ≠ 3),
      getPlayer_updTile, getPlayer_setStores,
      nextId_updPlayer, nextId_updTile, nextId_setStores]
    rfl
  · rw [getPlayer_updPlayer_self, getPlayer_updTile, getPlayer_setStores,
      getPlayer_updPlayer _ _ _ _ (by decide : (2 : Nat) ≠ 3),
      getPlayer_updTile, getPlayer_setStores,
      nextId_updPlayer, nextId_updTile, nextId_setStores]
    rfl

/-- The pair (gold, income) of a player slot, the ledger the bot-turn
accounting tracks. -/
def goldIncome (s : GameState) (j : Nat) : Option (Int × Int) :=
  (getPlayer s j).map (fun p => (p.gold, p.income))

theorem goldIncome_updTile (s : GameState) (p : Pos) (f : HexTile → HexTile)
    (j : Nat) : goldIncome (updTile s p f) j = goldIncome s j := rfl

theorem goldIncome_updUnit (s : GameState) (i : Nat) (f : GameUnit → GameUnit)
    (j : Nat) : goldIncome (updUnit s i f) j = goldIncome s j := rfl

theorem goldIncome_updBld (s : GameState) (i : Nat) (f : Building → Building)
    (j : Nat) : goldIncome (updBld s i f) j = goldIncome s j := rfl

theorem goldIncome_updPlayer (s : GameState) (i : Nat) (f : Player → Player)
    (j : Nat) (hf : ∀ p, (f p).gold = p.gold ∧ (f p).income = p.income) :
    goldIncome (updPlayer s i f) j = goldIncome s j := by
  unfold goldIncome
  rw [getPlayer_updPlayer_cases]
  split
  · cases getPlayer s j with
    | none => rfl
    | some p => simp [(hf p).1, (hf p).2]
  · rfl

theorem goldIncome_eliminatePlayer (s : GameState) (pid : Nat)
    (s' : GameState) (h : eliminatePlayer s pid = some s') (j : Nat) :
    goldIncome s' j = goldIncome s j ∨ goldIncome s' j = none := by
  unfold goldIncome
  rw [eliminatePlayer_getPlayer s pid s' h j]
  split
  · exact Or.inr rfl
  · exact Or.inl rfl

theorem goldIncome_resolveCombat (s : GameState) (a d : Nat) (pos : Pos)
    (s' : GameState) (h : resolveCombat s a d pos = some s') (j : Nat) :
    goldIncome s' j = goldIncome s j := by
  have hgU : ∀ (st : GameState) (i : Nat) (x : Nat),
      goldIncome (updPlayer st i
        (fun p => { p with units := p.units.erase x })) j = goldIncome st j :=
    fun st i x => goldIncome_updPlayer st i _ j (fun p => ⟨rfl, rfl⟩)
  unfold resolveCombat at h
  simp only [] at h
  repeat' split at h
  all_goals first
    | exact Option.noConfusion h
    | (obtain rfl := Option.some.inj h
       simp only [hgU, goldIncome_updTile, goldIncome_updUnit])

theorem goldIncome_attackBuilding (s : GameState) (a bid : Nat)
    (s' : GameState) (h : attackBuilding s a bid = some s') (j : Nat) :
    goldIncome s' j = goldIncome s j ∨ goldIncome s' j = none := by
  have hgB : ∀ (st : GameState) (i : Nat) (x : Nat),
      goldIncome (updPlayer st i
        (fun p => { p with buildings := p.buildings.erase x })) j =
        goldIncome st j :=
    fun st i x => goldIncome_updPlayer st i _ j (fun p => ⟨rfl, rfl⟩)
  unfold attackBuilding at h
  simp only [] at h
  repeat' split at h
  all_goals first
    | exact Option.noConfusion h
    | (obtain rfl := Option.some.inj h
       exact Or.inl (by simp only [hgB, goldIncome_updTile, goldIncome_updBld]))
    | (rcases goldIncome_eliminatePlayer _ _ _ h j with hc | hc
       exacts [Or.inl (hc.trans
         (by simp only [hgB, goldIncome_updTile, goldIncome_updBld])),
         Or.inr hc])

theorem goldIncome_botMoveStep (s : GameState) (pid uid : Nat)
    (s' : GameState) (h : botMoveStep s pid uid = some s') (j : Nat) :
    goldIncome s' j = goldIncome s j ∨ goldIncome s' j = none := by
  unfold botMoveStep at h
  simp only [] at h
  repeat' split at h
  all_goals first
    | exact Option.noConfusion h
    | (obtain rfl := Option.some.inj h
       exact Or.inl (by
         simp only [goldIncome_updTile, goldIncome_updUnit]))
    | exact Or.inl ((goldIncome_resolveCombat _ _ _ _ _ h j).trans
        (by simp only [goldIncome_updTile, goldIncome_updUnit]))
    | (rcases goldIncome_attackBuilding _ _ _ _ h j with hc | hc
       exacts [Or.inl (hc.trans
         (by simp only [goldIncome_updTile, goldIncome_updUnit])), Or.inr hc])

theorem goldIncome_botMoveGo (pid j : Nat) :
    ∀ (n : Nat) (s : GameState) (i : Nat) (s' : GameState),
      botMoveGo pid n s i = some s' →
      goldIncome s' j = goldIncome s j ∨ goldIncome s' j = none := by
  intro n
  induction n with
  | zero =>
    intro s i s' h
    exact Option.noConfusion h
  | succ n ih =>
    intro s i s' h
    unfold botMoveGo at h
    split at h
    · obtain rfl := Option.some.inj h
      exact Or.inl rfl
    · split at h
      · split at h
        · exact Option.noConfusion h
        next s1 hs1 =>
          rcases ih s1 (i + 1) s' h with hc | hc
          · rcases goldIncome_botMoveStep _ _ _ _ hs1 j with hd | hd
            · exact Or.inl (hc.trans hd)
            · exact Or.inr (hc.trans hd)
          · exact Or.inr hc
      · obtain rfl := Option.some.inj h
        exact Or.inl rfl

theorem goldIncome_botMoveUnits (s : GameState) (pid : Nat) (s' : GameState)
    (h : botMoveUnits s pid = some s') (j : Nat) :
    goldIncome s' j = goldIncome s j ∨ goldIncome s' j = none := by
  unfold botMoveUnits at h
  split at h
  · obtain rfl := Option.some.inj h
    exact Or.inl rfl
  · exact goldIncome_botMoveGo pid j _ s 0 s' h

theorem playerAddBuilding_afford (s : GameState) (pid : Nat)
    (bt : BuildingType) (pos : Pos) (b : Player)
    (hb : getPlayer s pid = some b)
    (hca : canAfford b (buildingData bt).cost = true) :
    playerAddBuilding s pid bt pos =
      (some s.nextId, setPlayer
        ⟨s.grid, s.players, s.unitStore,
         s.bldStore ++ [(s.nextId, mkBuilding bt pid pos)], s.nextId + 1,
         s.currentPlayer, s.selectedTile, s.turn⟩
        pid (some ⟨b.id, b.isBot, b.gold - (buildingData bt).cost,
          b.income + (buildingData bt).income,
          b.buildings ++ [s.nextId], b.units⟩)) := by
  unfold playerAddBuilding
  simp only [hb]
  rw [if_pos hca]

theorem botBuildGo_ledger (s : GameState) (pid : Nat)
    (bch : Pos → BuildingType) (b : Player) (hb : getPlayer s pid = some b) :
    ∀ l : List (Pos × HexTile), botBuildGo s pid bch l = s ∨
      ∃ bt : BuildingType, (buildingData bt).cost ≤ b.gold ∧
        getPlayer (botBuildGo s pid bch l) pid = some
          ⟨b.id, b.isBot, b.gold - (buildingData bt).cost,
           b.income + (buildingData bt).income,
           b.buildings ++ [s.nextId], b.units⟩ := by
  intro l
  induction l with
  | nil => exact Or.inl rfl
  | cons e rest ih =>
    obtain ⟨pos, tl⟩ := e
    cases htile : getTile s pos with
    | none =>
      have hstep : botBuildGo s pid bch ((pos, tl) :: rest) =
          botBuildGo s pid bch rest := by
        simp only [botBuildGo, htile, hb]
      rw [hstep]
      exact ih
    | some tile =>
      by_cases hcond : tile.owner = some pid ∧ tile.building = none ∧
          tile.terrain ≠ Terrain.water
      · by_cases hca : canAfford b (buildingData (bch pos)).cost = true
        · have hlt : pid < s.players.length := getPlayer_some_lt s pid b hb
          have hgp1 : getPlayer (playerAddBuilding s pid (bch pos) pos).2 pid
              = some ⟨b.id, b.isBot,
                  b.gold - (buildingData (bch pos)).cost,
                  b.income + (buildingData (bch pos)).income,
                  b.buildings ++ [s.nextId], b.units⟩ := by
            rw [playerAddBuilding_afford s pid (bch pos) pos b hb hca]
            show getPlayer (setPlayer _ pid _) pid = _
            rw [getPlayer_setPlayer, if_pos ⟨rfl, hlt⟩]
          have hstep : botBuildGo s pid bch ((pos, tl) :: rest) =
              updTile (playerAddBuilding s pid (bch pos) pos).2 pos
                (fun t => { t with building := some s.nextId }) := by
            simp only [botBuildGo, htile, hb]
            rw [if_pos hcond, if_pos hca]
            simp only [hgp1, List.getLast?_concat]
          rw [hstep]
          refine Or.inr ⟨bch pos, ?_, ?_⟩
          · have : decide (b.gold ≥ (buildingData (bch pos)).cost) = true := hca
            exact of_decide_eq_true this
          · rw [getPlayer_updTile]
            exact hgp1
        · have hstep : botBuildGo s pid bch ((pos, tl) :: rest) =
              botBuildGo s pid bch rest := by
            simp only [botBuildGo, htile, hb]
            rw [if_pos hcond, if_neg hca]
          rw [hstep]
          exact ih
      · have hstep : botBuildGo s pid bch ((pos, tl) :: rest) =
            botBuildGo s pid bch rest := by
          simp only [botBuildGo, htile, hb]
          rw [if_neg hcond]
        rw [hstep]
        exact ih

theorem botBuild_ledger (s : GameState) (pid : Nat)
    (bch : Pos → BuildingType) (b : Player) (hb : getPlayer s pid = some b) :
    botBuild s pid bch = s ∨
      ∃ bt : BuildingType, (buildingData bt).cost ≤ b.gold ∧
        getPlayer (botBuild s pid bch) pid = some
          ⟨b.id, b.isBot, b.gold - (buildingData bt).cost,
           b.income + (buildingData bt).income,
           b.buildings ++ [s.nextId], b.units⟩ := by
  unfold botBuild
  simp only [hb]
  by_cases hg : b.gold ≥ 300
  · rw [if_pos hg]
    exact botBuildGo_ledger s pid bch b hb s.grid
  · rw [if_neg hg]
    exact Or.inl rfl

theorem playerAddUnit_afford (s : GameState) (pid : Nat) (ut : UnitType)
    (b : Player) (hb : getPlayer s pid = some b)
    (hca : canAfford b (unitData ut).cost = true) :
    playerAddUnit s pid ut =
      (some s.nextId, setPlayer
        ⟨s.grid, s.players, s.unitStore ++ [(s.nextId, mkUnit ut pid)],
         s.bldStore, s.nextId + 1,
         s.currentPlayer, s.selectedTile, s.turn⟩
        pid (some ⟨b.id, b.isBot, b.gold - (unitData ut).cost, b.income,
          b.buildings, b.units ++ [s.nextId]⟩)) := by
  unfold playerAddUnit
  simp only [hb]
  rw [if_pos hca]

theorem botCreateGo_ledger (s : GameState) (pid : Nat) (ut : UnitType)
    (b : Player) (hb : getPlayer s pid = some b)
    (hca : canAfford b (unitData ut).cost = true) :
    ∀ l : List Nat, botCreateGo s pid ut l = s ∨
      ((unitData ut).cost ≤ b.gold ∧
        getPlayer (botCreateGo s pid ut l) pid = some
          ⟨b.id, b.isBot, b.gold - (unitData ut).cost, b.income,
           b.buildings, b.units ++ [s.nextId]⟩) := by
  intro l
  induction l with
  | nil => exact Or.inl rfl
  | cons bid rest ih =>
    cases hbld : getBld s bid with
    | none =>
      have hstep : botCreateGo s pid ut (bid :: rest) =
          botCreateGo s pid ut rest := by
        simp only [botCreateGo, hbld]
      rw [hstep]
      exact ih
    | some bld =>
      by_cases hbt : bld.btype = BuildingType.barracks ∨
          bld.btype = BuildingType.capital
      · cases hspot : findSpot s bld.position with
        | none =>
          have hstep : botCreateGo s pid ut (bid :: rest) =
              botCreateGo s pid ut rest := by
            simp only [botCreateGo, hbld, hspot]
            rw [if_pos hbt]
          rw [hstep]
          exact ih
        | some npos =>
          have hlt : pid < s.players.length := getPlayer_some_lt s pid b hb
          have hpau := playerAddUnit_afford s pid ut b hb hca
          have hgp1 : getPlayer (playerAddUnit s pid ut).2 pid = some
              ⟨b.id, b.isBot, b.gold - (unitData ut).cost, b.income,
               b.buildings, b.units ++ [s.nextId]⟩ := by
            rw [hpau]
            show getPlayer (setPlayer _ pid _) pid = _
            rw [getPlayer_setPlayer, if_pos ⟨rfl, hlt⟩]
          have hstep : botCreateGo s pid ut (bid :: rest) =
              updTile (playerAddUnit s pid ut).2 npos
                (fun t => { t with unit := some s.nextId }) := by
            simp only [botCreateGo, hbld, hspot]
            rw [if_pos hbt, hpau]
          rw [hstep]
          refine Or.inr ⟨?_, ?_⟩
          · have : decide (b.gold ≥ (unitData ut).cost) = true := hca
            exact of_decide_eq_true this
          · rw [getPlayer_updTile]
            exact hgp1
      · have hstep : botCreateGo s pid ut (bid :: rest) =
            botCreateGo s pid ut rest := by
          simp only [botCreateGo, hbld]
          rw [if_neg hbt]
        rw [hstep]
        exact ih

theorem botCreateUnits_ledger (s : GameState) (pid : Nat) (ut : UnitType)
    (b : Player) (hb : getPlayer s pid = some b) :
    botCreateUnits s pid ut = s ∨
      ((unitData ut).cost ≤ b.gold ∧
        getPlayer (botCreateUnits s pid ut) pid = some
          ⟨b.id, b.isBot, b.gold - (unitData ut).cost, b.income,
           b.buildings, b.units ++ [s.nextId]⟩) := by
  unfold botCreateUnits
  simp only [hb]
  by_cases hg : b.gold ≥ 200
  · rw [if_pos hg]
    by_cases hca : canAfford b (unitData ut).cost = true
    · rw [if_pos hca]
      exact botCreateGo_ledger s pid ut b hb hca b.buildings
    · rw [if_neg hca]
      exact Or.inl rfl
  · rw [if_neg hg]
    exact Or.inl rfl

theorem getPlayer_afterCollect (s : GameState) (pid : Nat) (b : Player)
    (hb : getPlayer s pid = some b) :
    getPlayer (afterCollect s pid) pid = some
      ⟨b.id, b.isBot, b.gold + b.income, b.income, b.buildings, b.units⟩ := by
  unfold afterCollect
  simp only [hb]
  rw [getPlayer_setPlayer, if_pos ⟨rfl, getPlayer_some_lt s pid b hb⟩]

theorem getPlayer_endTurn (s s' : GameState) (h : endTurn s = some s')
    (j : Nat) :
    getPlayer s' j =
      if j < s.players.length
      then (getPlayer s j).map (fun p => { p with gold := p.gold + p.income })
      else getPlayer s j := by
  unfold endTurn at h
  split at h
  · exact Option.noConfusion h
  · obtain rfl := Option.some.inj h
    rw [getPlayer_foldl_endTurnCredit _ _ (List.nodup_range _) j]
    by_cases hj : j < s.players.length
    · rw [if_pos (List.mem_range.mpr hj), if_pos hj]
      rfl
    · rw [if_neg (fun hc => hj (List.mem_range.mp hc)), if_neg hj]
      rfl

/-- C2 (amended): over a full bot turn the bot's income is credited twice
— once by the collect phase of `run_bot_turn` and once more by
`end_turn`'s crediting loop — so a bot starting at gold 1000, income 100
ends at 1000 + 100 + (100 + incB) minus what the build and produce phases
spent, where incB is the built building's income (0 if none was built);
gold never goes negative at any phase boundary (the spends are bounded by
the gold at hand), unless the bot was eliminated during its own move
phase. -/
theorem bot_turn_gold_amended (s : GameState) (pid : Nat)
    (bch : Pos → BuildingType) (uch : UnitType) (s' : GameState)
    (h : runBotTurn s pid bch uch = some s')
    (b : Player) (hb : getPlayer s pid = some b)
    (hg : b.gold = 1000) (hi : b.income = 100) :
    getPlayer s' pid = none ∨
    ∃ spendB spendU incB : Int,
      0 ≤ spendB ∧ spendB ≤ 1100 ∧
      0 ≤ spendU ∧ spendU ≤ 1100 - spendB ∧ 0 ≤ incB ∧
      incomeOf s' pid = 100 + incB ∧
      goldOf s' pid = 1000 + 100 + (100 + incB) - spendB - spendU ∧
      0 ≤ goldOf s' pid := by
  unfold runBotTurn at h
  simp only [hb] at h
  split at h
  · exact Option.noConfusion h
  next s4 hs4 =>
  have hb1 : getPlayer (afterCollect s pid) pid = some
      ⟨b.id, b.isBot, 1100, 100, b.buildings, b.units⟩ := by
    rw [getPlayer_afterCollect s pid b hb, hg, hi]
    norm_num
  have hphase2 : ∃ spendB incB : Int, 0 ≤ spendB ∧ spendB ≤ 1100 ∧
      0 ≤ incB ∧ ∃ b2 : Player,
        getPlayer (botBuild (afterCollect s pid) pid bch) pid = some b2 ∧
        b2.gold = 1100 - spendB ∧ b2.income = 100 + incB := by
    rcases botBuild_ledger (afterCollect s pid) pid bch _ hb1 with
      hB | ⟨bt, hcost, hB⟩
    · refine ⟨0, 0, le_refl 0, by norm_num, le_refl 0,
        ⟨b.id, b.isBot, 1100, 100, b.buildings, b.units⟩, ?_, by norm_num,
        by norm_num⟩
      rw [hB]
      exact hb1
    · exact ⟨(buildingData bt).cost, (buildingData bt).income,
        by cases bt <;> decide, hcost, by cases bt <;> decide, _, hB, rfl, rfl⟩
  obtain ⟨spendB, incB, hsb0, hsb1, hib0, b2, hb2, hb2g, hb2i⟩ := hphase2
  have hphase3 : ∃ spendU : Int, 0 ≤ spendU ∧ spendU ≤ 1100 - spendB ∧
      ∃ b3 : Player,
        getPlayer (botCreateUnits (botBuild (afterCollect s pid) pid bch)
          pid uch) pid = some b3 ∧
        b3.gold = 1100 - spendB - spendU ∧ b3.income = 100 + incB := by
    rcases botCreateUnits_ledger _ pid uch b2 hb2 with hC | ⟨hucost, hC⟩
    · refine ⟨0, le_refl 0, by linarith, b2, ?_, by rw [hb2g]; ring, hb2i⟩
      rw [hC]
      exact hb2
    · refine ⟨(unitData uch).cost, by cases uch <;> decide, ?_, _, hC, ?_, ?_⟩
      · rw [← hb2g]
        exact hucost
      · show b2.gold - (unitData uch).cost =
          1100 - spendB - (unitData uch).cost
        rw [hb2g]
      · show b2.income = 100 + incB
        exact hb2i
  obtain ⟨spendU, hsu0, hsu1, b3, hb3, hb3g, hb3i⟩ := hphase3
  rcases goldIncome_botMoveUnits _ pid s4 hs4 pid with hM | hM
  · have hgi4 : goldIncome s4 pid = some (b3.gold, b3.income) := by
      rw [hM]
      unfold goldIncome
      rw [hb3]
      rfl
    obtain ⟨b4, hb4, hb4gi⟩ : ∃ b4, getPlayer s4 pid = some b4 ∧
        (b4.gold, b4.income) = (b3.gold, b3.income) := by
      unfold goldIncome at hgi4
      cases hx : getPlayer s4 pid with
      | none =>
        rw [hx] at hgi4
        exact absurd hgi4 (by simp)
      | some b4 =>
        rw [hx] at hgi4
        simp only [Option.map_some', Option.some.injEq] at hgi4
        exact ⟨b4, rfl, hgi4⟩
    have hg4 : b4.gold = b3.gold := congrArg Prod.fst hb4gi
    have hi4 : b4.income = b3.income := congrArg Prod.snd hb4gi
    have hlt4 : pid < s4.players.length := getPlayer_some_lt s4 pid b4 hb4
    have h5 := getPlayer_endTurn s4 s' h pid
    rw [if_pos hlt4, hb4] at h5
    simp only [Option.map_some'] at h5
    right
    refine ⟨spendB, spendU, incB, hsb0, hsb1, hsu0, hsu1, hib0, ?_, ?_, ?_⟩
    · unfold incomeOf
      rw [h5]
      show b4.income = 100 + incB
      rw [hi4, hb3i]
    · unfold goldOf
      rw [h5]
      show b4.gold + b4.income = 1000 + 100 + (100 + incB) - spendB - spendU
      rw [hg4, hi4, hb3g, hb3i]
      ring
    · unfold goldOf
      rw [h5]
      show 0 ≤ b4.gold + b4.income
      rw [hg4, hi4, hb3g, hb3i]
      linarith
  · have hnone : getPlayer s4 pid = none := by
      unfold goldIncome at hM
      exact Option.map_eq_none'.mp hM
    left
    have h5 := getPlayer_endTurn s4 s' h pid
    rw [hnone] at h5
    rw [h5]
    split <;> simp

/-- C2, counterexample: a lone bot on an empty board that spends nothing
ends the turn at gold 1200, not the claimed 1000 + 100 = 1100, because
`run_bot_turn` credits the income and then `end_turn` credits it again. -/
theorem bot_turn_counterexample :
    (runBotTurn cexS2 0 (fun _ => BuildingType.capital)
      UnitType.infantry).map (fun t => goldOf t 0) = some 1200 ∧
    ¬ (runBotTurn cexS2 0 (fun _ => BuildingType.capital)
      UnitType.infantry).map (fun t => goldOf t 0) = some 1100 := by
  exact ⟨by decide, by decide⟩

/-- The state `cexS2` actually reaches after the full bot turn. -/
def cexS2' : GameState :=
  ⟨[], [some ⟨0, true, 1200, 100, [], []⟩, none, none, none], [], [], 0, 0,
   none, 2⟩

theorem bot_turn_gold_amended_witness :
    runBotTurn cexS2 0 (fun _ => BuildingType.capital) UnitType.infantry =
      some cexS2' ∧
    (getPlayer cexS2' 0 = none ∨
    ∃ spendB spendU incB : Int,
      0 ≤ spendB ∧ spendB ≤ 1100 ∧
      0 ≤ spendU ∧ spendU ≤ 1100 - spendB ∧ 0 ≤ incB ∧
      incomeOf cexS2' 0 = 100 + incB ∧
      goldOf cexS2' 0 = 1000 + 100 + (100 + incB) - spendB - spendU ∧
      0 ≤ goldOf cexS2' 0) :=
  ⟨by decide, bot_turn_gold_amended cexS2 0 (fun _ => BuildingType.capital)
    UnitType.infantry cexS2' (by decide) cexBot (by decide) (by decide)
    (by decide)⟩

theorem Walk.snoc {T : Pos → Terrain} {G : Pos → Bool} {s p : Pos}
    {k : Nat} (w : Walk T G s p k) :
    ∀ {x : Pos}, x ∈ nbrs G p → T x ≠ Terrain.water →
      Walk T G s x (k + 1) := by
  induction w with
  | refl p =>
    intro x hx hw
    exact Walk.step hx hw (Walk.refl x)
  | step hq hnw _ ih =>
    intro x hx hw
    exact Walk.step hq hnw (ih hx hw)

theorem tilesGo_sound (T : Pos → Terrain) (G : Pos → Bool) (start : Pos)
    (movement : Nat) :
    ∀ (q : List (Pos × Nat)) (visited result : List Pos),
      (∀ e ∈ q, ∃ k, Walk T G start e.1 k ∧ k + e.2 ≤ movement ∧
        (e.1 ≠ start → T e.1 ≠ Terrain.water)) →
      (∀ x ∈ result, (∃ k, Walk T G start x k ∧ k ≤ movement) ∧
        (x ≠ start → T x ≠ Terrain.water)) →
      ∀ x ∈ tilesGo T G q visited result,
        (∃ k, Walk T G start x k ∧ k ≤ movement) ∧
        (x ≠ start → T x ≠ Terrain.water) := by
  intro q visited result
  induction q, visited, result using tilesGo.induct T G with
  | case1 visited result =>
    intro _ hres x hx
    rw [tilesGo] at hx
    exact hres x hx
  | case2 pos m rest visited result hm ih =>
    intro hq hres x hx
    rw [tilesGo, if_pos hm] at hx
    refine ih ?_ ?_ x hx
    · intro e he
      rcases List.mem_append.mp he with he | he
      · exact hq e (List.mem_cons_of_mem _ he)
      · obtain ⟨y, hy, rfl⟩ := List.mem_map.mp he
        have hyf := List.of_mem_filter hy
        have hyn := List.mem_of_mem_filter hy
        simp only [decide_eq_true_eq] at hyf
        obtain ⟨k, hwalk, hbound, _⟩ := hq (pos, m) (List.mem_cons_self _ _)
        exact ⟨k + 1, hwalk.snoc hyn hyf.2, by omega, fun _ => hyf.2⟩
    · intro y hy
      rcases List.mem_append.mp hy with hy | hy
      · exact hres y hy
      · rw [List.mem_singleton] at hy
        rw [hy]
        obtain ⟨k, hwalk, hbound, hnw⟩ := hq (pos, m) (List.mem_cons_self _ _)
        exact ⟨⟨k, hwalk, by omega⟩, hnw⟩
  | case3 pos m rest visited result hm ih =>
    intro hq hres x hx
    rw [tilesGo, if_neg hm] at hx
    refine ih ?_ ?_ x hx
    · intro e he
      exact hq e (List.mem_cons_of_mem _ he)
    · intro y hy
      rcases List.mem_append.mp hy with hy | hy
      · exact hres y hy
      · rw [List.mem_singleton] at hy
        rw [hy]
        obtain ⟨k, hwalk, hbound, hnw⟩ := hq (pos, m) (List.mem_cons_self _ _)
        exact ⟨⟨k, hwalk, by omega⟩, hnw⟩

/-- C1, counterexample: `get_tiles_in_range` spends one movement point per
step whatever the terrain, so with budget 1 it reaches the forest tile
(1, 0) whose terrain entry cost is 2; and the start tile is always in the
result, even when it is water. -/
theorem tiles_in_range_counterexample :
    getTilesInRange T1 G2 (0, 0) 1 = [(0, 0), (1, 0)] ∧
    (1 : Int) < terrainMoveCost (T1 (1, 0)) ∧
    getTilesInRange TW G1 (0, 0) 1 = [(0, 0)] ∧
    TW (0, 0) = Terrain.water := by
  refine ⟨?_, by decide, ?_, by decide⟩
  · simp [getTilesInRange, tilesGo, nbrs, hexDirs, G2, T1, Prod.ext_iff]
  · simp [getTilesInRange, tilesGo, nbrs, hexDirs, G1, TW, Prod.ext_iff]

/-- C1 (amended): every tile returned by `get_tiles_in_range` is reachable
from the start in at most `movement` unit steps (each step moving to an
in-grid neighbour, never entering water), and every returned tile other
than the start is not water; terrain costs play no role — the search
spends exactly one movement point per step. -/
theorem tiles_in_range_amended (T : Pos → Terrain) (G : Pos → Bool)
    (start : Pos) (movement : Nat) :
    ∀ x ∈ getTilesInRange T G start movement,
      (∃ k, Walk T G start x k ∧ k ≤ movement) ∧
      (x ≠ start → T x ≠ Terrain.water) := by
  intro x hx
  refine tilesGo_sound T G start movement [(start, movement)] [start] []
    ?_ ?_ x hx
  · intro e he
    rw [List.mem_singleton] at he
    rw [he]
    exact ⟨0, Walk.refl start, by omega, fun hne => absurd rfl hne⟩
  · intro y hy
    exact absurd hy (List.not_mem_nil y)

theorem tiles_in_range_amended_witness :
    (((1, 0) : Pos) ∈ getTilesInRange TP G2 (0, 0) 1) ∧
    ((∃ k, Walk TP G2 (0, 0) ((1, 0) : Pos) k ∧ k ≤ 1) ∧
      (((1, 0) : Pos) ≠ (0, 0) → TP (1, 0) ≠ Terrain.water)) := by
  have hmem : ((1, 0) : Pos) ∈ getTilesInRange TP G2 (0, 0) 1 := by
    simp [getTilesInRange, tilesGo, nbrs, hexDirs, G2, TP, Prod.ext_iff]
  exact ⟨hmem, tiles_in_range_amended TP G2 (0, 0) 1 (1, 0) hmem⟩

theorem Walk.toAvoid {T : Pos → Terrain} {G : Pos → Bool} {p r : Pos}
    {n : Nat} (w : Walk T G p r n) : AvoidWalk T G [] p r n := by
  induction w with
  | refl p => exact AvoidWalk.refl p
  | step hq hnw _ ih =>
    exact AvoidWalk.step hq hnw (List.not_mem_nil _) ih

theorem AvoidWalk.toWalk {T : Pos → Terrain} {G : Pos → Bool} {V : List Pos}
    {p r : Pos} {n : Nat} (w : AvoidWalk T G V p r n) : Walk T G p r n := by
  induction w with
  | refl p => exact Walk.refl p
  | step hq hnw _ _ ih => exact Walk.step hq hnw ih

theorem avoidWalk_zero {T : Pos → Terrain} {G : Pos → Bool} {V : List Pos}
    {p r : Pos} (w : AvoidWalk T G V p r 0) : p = r := by
  cases w
  rfl

theorem avoidWalk_extend {T : Pos → Terrain} {G : Pos → Bool} {V : List Pos}
    (B : List Pos) {p e : Pos} {j : Nat} (w : AvoidWalk T G V p e j) :
    AvoidWalk T G (V ++ B) p e j ∨
    ∃ x i, x ∈ B ∧ 1 ≤ i ∧ i ≤ j ∧ AvoidWalk T G (V ++ B) x e (j - i) := by
  induction w with
  | refl p => exact Or.inl (AvoidWalk.refl p)
  | step hq hnw hqv w ih =>
    rename_i p' q' r' n'
    rcases ih with hw | ⟨x, i, hxB, hi1, hij, hw⟩
    · by_cases hqB : q' ∈ B
      · exact Or.inr ⟨q', 1, hqB, le_refl 1, by omega, hw⟩
      · refine Or.inl (AvoidWalk.step hq hnw ?_ hw)
        intro hc
        rcases List.mem_append.mp hc with hc | hc
        · exact hqv hc
        · exact hqB hc
    · refine Or.inr ⟨x, i + 1, hxB, by omega, by omega, ?_⟩
      have : n' + 1 - (i + 1) = n' - i := by omega
      rw [this]
      exact hw

theorem sorted_map_const {α : Type} (l : List α) (c : Nat) :
    List.Sorted (· ≤ ·) (l.map (fun _ => c)) := by
  induction l with
  | nil => simp
  | cons a t ih =>
    rw [List.map_cons, List.sorted_cons]
    refine ⟨?_, ih⟩
    intro b hb
    obtain ⟨y, _, rfl⟩ := List.mem_map.mp hb
    exact le_refl c

theorem findPathGo_complete (T : Pos → Terrain) (G : Pos → Bool)
    (endP : Pos) (M : Nat) :
    ∀ (q : List (Pos × List Pos)) (visited : List Pos),
      BfsInv T G endP M q visited →
      findPathGo T G endP M q visited ≠ [] := by
  intro q visited
  induction q, visited using findPathGo.induct T G endP M with
  | case1 visited =>
    intro inv
    obtain ⟨e, he, _⟩ := inv.wit
    exact absurd he (List.not_mem_nil e)
  | case2 p path rest visited hlen ih =>
    intro inv
    rw [findPathGo, if_pos hlen]
    refine ih ?_
    refine ⟨fun e he => inv.len_pos e (List.mem_cons_of_mem _ he), ?_,
      fun e1 h1 e2 h2 => inv.gap e1 (List.mem_cons_of_mem _ h1) e2
        (List.mem_cons_of_mem _ h2), ?_⟩
    · have hs := inv.sorted
      rw [List.map_cons, List.sorted_cons] at hs
      exact hs.2
    · obtain ⟨e, he, j, hw, hb⟩ := inv.wit
      rcases List.mem_cons.mp he with rfl | he
      · have hb2 : path.length + j ≤ M := hb
        exact absurd hlen (by simp only [gt_iff_lt, not_lt]; omega)
      · exact ⟨e, he, j, hw, hb⟩
  | case3 path rest visited hlen =>
    intro inv
    rw [findPathGo, if_neg hlen, if_pos rfl]
    have h1 : 1 ≤ path.length :=
      inv.len_pos (endP, path) (List.mem_cons_self _ _)
    exact List.ne_nil_of_length_pos (by omega)
  | case4 p path rest visited hlen hne ih =>
    intro inv
    rw [findPathGo, if_neg hlen, if_neg hne]
    refine ih ?_
    have hs := inv.sorted
    rw [List.map_cons, List.sorted_cons] at hs
    have hheadle : ∀ e ∈ rest, path.length ≤ e.2.length := by
      intro e he
      exact hs.1 e.2.length (List.mem_map.mpr ⟨e, he, rfl⟩)
    have hmemB : ∀ x, x ∈ (nbrs G p).filter
        (fun x => decide (x ∉ visited ∧ T x ≠ Terrain.water)) ↔
        (x ∈ nbrs G p ∧ (x ∉ visited ∧ T x ≠ Terrain.water)) := by
      intro x
      rw [List.mem_filter, decide_eq_true_eq]
    have hlenB : ∀ e ∈ ((nbrs G p).filter
        (fun x => decide (x ∉ visited ∧ T x ≠ Terrain.water))).map
          (fun x => (x, path ++ [x])), e.2.length = path.length + 1 := by
      intro e he
      obtain ⟨y, _, rfl⟩ := List.mem_map.mp he
      simp
    refine ⟨?_, ?_, ?_, ?_⟩
    · intro e he
      rcases List.mem_append.mp he with he | he
      · exact inv.len_pos e (List.mem_cons_of_mem _ he)
      · rw [hlenB e he]
        omega
    · rw [List.map_append]
      refine List.pairwise_append.mpr ⟨hs.2, ?_, ?_⟩
      · have : (((nbrs G p).filter
            (fun x => decide (x ∉ visited ∧ T x ≠ Terrain.water))).map
              (fun x => (x, path ++ [x]))).map (fun e => e.2.length) =
            ((nbrs G p).filter
            (fun x => decide (x ∉ visited ∧ T x ≠ Terrain.water))).map
              (fun _ => path.length + 1) := by
          rw [List.map_map]
          refine List.map_congr_left ?_
          intro y _
          simp [Function.comp]
        rw [this]
        exact sorted_map_const _ _
      · intro a ha b hb
        obtain ⟨e1, he1, rfl⟩ := List.mem_map.mp ha
        obtain ⟨e2, he2, rfl⟩ := List.mem_map.mp hb
        rw [hlenB e2 he2]
        have h2 : e1.2.length ≤ path.length + 1 :=
          inv.gap e1 (List.mem_cons_of_mem _ he1) (p, path)
            (List.mem_cons_self _ _)
        omega
    · intro e1 h1 e2 h2
      rcases List.mem_append.mp h1 with h1 | h1 <;>
        rcases List.mem_append.mp h2 with h2 | h2
      · exact inv.gap e1 (List.mem_cons_of_mem _ h1) e2
          (List.mem_cons_of_mem _ h2)
      · rw [hlenB e2 h2]
        have h3 : e1.2.length ≤ path.length + 1 :=
          inv.gap e1 (List.mem_cons_of_mem _ h1) (p, path)
            (List.mem_cons_self _ _)
        omega
      · rw [hlenB e1 h1]
        have h3 := hheadle e2 h2
        omega
      · rw [hlenB e1 h1, hlenB e2 h2]
        omega
    · obtain ⟨e, he, j, hw, hb⟩ := inv.wit
      rcases List.mem_cons.mp he with rfl | he
      · -- the processed head is the witness; p ≠ endP so the walk steps
        have hb2 : path.length + j ≤ M := hb
        cases hw with
        | refl => exact absurd rfl hne
        | step hq hnw hqv hw2 =>
          rename_i q1 n1
          have hq1B : q1 ∈ (nbrs G p).filter
              (fun x => decide (x ∉ visited ∧ T x ≠ Terrain.water)) :=
            (hmemB q1).mpr ⟨hq, hqv, hnw⟩
          rcases avoidWalk_extend ((nbrs G p).filter
              (fun x => decide (x ∉ visited ∧ T x ≠ Terrain.water))) hw2 with
            hw3 | ⟨x, i, hxB, hi1, hij, hw3⟩
          · refine ⟨(q1, path ++ [q1]), List.mem_append.mpr (Or.inr
              (List.mem_map.mpr ⟨q1, hq1B, rfl⟩)), n1, hw3, ?_⟩
            simp only [List.length_append, List.length_cons,
              List.length_nil]
            omega
          · refine ⟨(x, path ++ [x]), List.mem_append.mpr (Or.inr
              (List.mem_map.mpr ⟨x, hxB, rfl⟩)), n1 - i, hw3, ?_⟩
            simp only [List.length_append, List.length_cons,
              List.length_nil]
            omega
      · rcases avoidWalk_extend ((nbrs G p).filter
            (fun x => decide (x ∉ visited ∧ T x ≠ Terrain.water))) hw with
          hw3 | ⟨x, i, hxB, hi1, hij, hw3⟩
        · exact ⟨e, List.mem_append.mpr (Or.inl he), j, hw3, hb⟩
        · refine ⟨(x, path ++ [x]), List.mem_append.mpr (Or.inr
            (List.mem_map.mpr ⟨x, hxB, rfl⟩)), j - i, hw3, ?_⟩
          have h4 := hheadle e he
          simp only [List.length_append, List.length_cons, List.length_nil]
          omega

theorem findPathGo_sound (T : Pos → Terrain) (G : Pos → Bool)
    (endP : Pos) (M : Nat) (start : Pos) :
    ∀ (q : List (Pos × List Pos)) (visited : List Pos),
      (∀ e ∈ q, EntryOk T G start e) →
      findPathGo T G endP M q visited = [] ∨
      (PathSeqOk T G start endP (findPathGo T G endP M q visited) ∧
        (findPathGo T G endP M q visited).length ≤ M) := by
  intro q visited
  induction q, visited using findPathGo.induct T G endP M with
  | case1 visited =>
    intro _
    rw [findPathGo]
    exact Or.inl rfl
  | case2 p path rest visited hlen ih =>
    intro hq
    rw [findPathGo, if_pos hlen]
    exact ih (fun e he => hq e (List.mem_cons_of_mem _ he))
  | case3 path rest visited hlen =>
    intro hq
    rw [findPathGo, if_neg hlen, if_pos rfl]
    obtain ⟨hnn, hhd, hlast, hchain⟩ :=
      hq (endP, path) (List.mem_cons_self _ _)
    refine Or.inr ⟨⟨hhd, hlast, hchain⟩, ?_⟩
    omega
  | case4 p path rest visited hlen hne ih =>
    intro hq
    rw [findPathGo, if_neg hlen, if_neg hne]
    refine ih ?_
    intro e he
    rcases List.mem_append.mp he with he | he
    · exact hq e (List.mem_cons_of_mem _ he)
    · obtain ⟨x, hx, rfl⟩ := List.mem_map.mp he
      obtain ⟨hnn, hhd, hlast, hchain⟩ :=
        hq (p, path) (List.mem_cons_self _ _)
      have hxf := List.of_mem_filter hx
      have hxn := List.mem_of_mem_filter hx
      rw [decide_eq_true_eq] at hxf
      refine ⟨by simp, ?_, ?_, ?_⟩
      · cases path with
        | nil => exact absurd rfl hnn
        | cons a t => simpa using hhd
      · exact List.getLast?_concat _
      · refine List.chain'_append.mpr ⟨hchain, List.chain'_singleton x, ?_⟩
        intro y hy z hz
        rw [List.head?_cons, Option.mem_some_iff] at hz
        have hyp : p = y := by
          rw [hlast] at hy
          simpa using hy
        rw [← hyp, ← hz]
        exact ⟨hxn, hxf.2⟩

theorem pathSeq_walk (T : Pos → Terrain) (G : Pos → Bool) :
    ∀ (l : List Pos) (a b : Pos), l.head? = some a → l.getLast? = some b →
      List.Chain' (PathStep T G) l → Walk T G a b (l.length - 1) := by
  intro l
  induction l with
  | nil =>
    intro a b h
    exact absurd h (by simp)
  | cons c t ih =>
    intro a b hh hl hc
    obtain rfl : c = a := by simpa using hh
    cases t with
    | nil =>
      obtain rfl : c = b := by simpa using hl
      exact Walk.refl c
    | cons d t2 =>
      rw [List.chain'_cons] at hc
      rw [List.getLast?_cons_cons] at hl
      have hw := ih d b rfl hl hc.2
      exact Walk.step hc.1.1 hc.1.2 hw

/-- C5, counterexample: `_find_path` returns the path *including* the
start coordinate, and its `len(path) > max_moves` guard is off by one —
with `max_steps = 1` it returns nothing even though the target is one
unit step away. -/
theorem find_path_counterexample :
    findPath TP G2 (0, 0) (1, 0) 2 = [(0, 0), (1, 0)] ∧
    findPath TP G2 (0, 0) (1, 0) 1 = [] ∧
    Walk TP G2 (0, 0) (1, 0) 1 := by
  refine ⟨?_, ?_, ?_⟩
  · simp [findPath, findPathGo, nbrs, hexDirs, G2, TP, Prod.ext_iff]
  · simp [findPath, findPathGo, nbrs, hexDirs, G2, TP, Prod.ext_iff]
  · exact Walk.step (by decide) (by decide) (Walk.refl _)

/-- C5 (amended): `_find_path` is a unit-step breadth-first search whose
nonempty results are ordered coordinate sequences that start at `start`
(the start is included, not excluded), end at `endP`, step only to
in-grid non-water neighbours, and have length at most `max_steps`; the
result is nonempty exactly when `endP` is reachable from `start` in `k`
unit steps with `k + 1 ≤ max_steps` (the off-by-one: a walk of exactly
`max_steps` steps is not found). -/
theorem find_path_amended (T : Pos → Terrain) (G : Pos → Bool)
    (start endP : Pos) (M : Nat) :
    (findPath T G start endP M ≠ [] →
      PathSeqOk T G start endP (findPath T G start endP M) ∧
      (findPath T G start endP M).length ≤ M) ∧
    (findPath T G start endP M ≠ [] ↔
      ∃ k, Walk T G start endP k ∧ k + 1 ≤ M) := by
  have hinit : ∀ e ∈ ([((start, [start]))] : List (Pos × List Pos)),
      EntryOk T G start e := by
    intro e he
    rw [List.mem_singleton] at he
    rw [he]
    exact ⟨by simp, rfl, rfl, List.chain'_singleton start⟩
  have hsound := findPathGo_sound T G endP M start [(start, [start])] []
    hinit
  have heq : findPath T G start endP M =
      findPathGo T G endP M [(start, [start])] [] := rfl
  rw [← heq] at hsound
  have hsnd : findPath T G start endP M ≠ [] →
      PathSeqOk T G start endP (findPath T G start endP M) ∧
      (findPath T G start endP M).length ≤ M := by
    intro hne
    rcases hsound with h | h
    · exact absurd h hne
    · exact h
  refine ⟨hsnd, ?_, ?_⟩
  · intro hne
    obtain ⟨⟨hhd, hlast, hchain⟩, hlen⟩ := hsnd hne
    refine ⟨(findPath T G start endP M).length - 1,
      pathSeq_walk T G _ start endP hhd hlast hchain, ?_⟩
    have hpos : 0 < (findPath T G start endP M).length :=
      List.length_pos.mpr hne
    omega
  · rintro ⟨k, hw, hkM⟩
    have hcomp := findPathGo_complete T G endP M [(start, [start])] []
      ⟨by simp, by simp, ?_, ?_⟩
    · rw [← heq] at hcomp
      exact hcomp
    · intro e1 h1 e2 h2
      rw [List.mem_singleton] at h1 h2
      rw [h1, h2]
      omega
    · refine ⟨(start, [start]), List.mem_singleton.mpr rfl, k,
        hw.toAvoid, ?_⟩
      simp only [List.length_cons, List.length_nil]
      omega

theorem find_path_amended_witness :
    findPath TP G2 (0, 0) (1, 0) 2 ≠ [] ↔
      ∃ k, Walk TP G2 (0, 0) (1, 0) k ∧ k + 1 ≤ 2 :=
  (find_path_amended TP G2 (0, 0) (1, 0) 2).2
